import Mathlib

/-!
# Verification of the rest-ql core engines against their specification

This development shallowly embeds the core of the rest-ql repository:
the JSON value domain manipulated by the engine, the cache manager
(`src/CacheManager.ts`), the batch manager
(`src/src/core/batch/BatchManager.ts`), the SDL type-storage decision of
`src/src/core/parser/SDLParser.ts`, and the two engine drafts:
`RestQL` from `src/unnamed/part_001` (referred to as `RQA` below) and
`RestQL` from `src/src/core/restQl.ts` (referred to as `RQB` below).

JavaScript machine details are modelled explicitly: JS values are the
inductive `JValue` (with distinct `nul` and `undef`), host-language
conversions (`Number`, `String`, truthiness) are modelled as total
functions on `JValue`, numbers are rationals (finite doubles), and the
asynchronous engine pipeline is determinised: queued batch closures run
inline in enqueue order, which matches the repository's single-threaded
cooperative model.  Transport (HTTP) is an oracle supplied in the
environment; each invocation is counted so that "no transport call is
made" is expressible.
-/

/-- JSON-ish JavaScript runtime values.  `nul` is JS `null`, `undef` is JS
`undefined` (the two are distinct observables in the source). -/
inductive JValue where
  | nul
  | undef
  | bool (b : Bool)
  | num (q : Rat)
  | str (s : String)
  | arr (xs : List JValue)
  | obj (flds : List (String × JValue))

/-- Error taxonomy of the repository (`src/core/validation/errors.ts`):
`validation` mirrors `ValidationError`, `network` mirrors `NetworkError`,
`generic` mirrors a plain thrown `Error`, and `outOfFuel` is the model's
divergence marker for the unbounded recursion of the engine. -/
inductive RError where
  | validation (msg : String)
  | network (msg : String)
  | generic (msg : String)
  | outOfFuel

/-- The `instanceof ValidationError` test used by `shapeData`'s catch. -/
def RError.isValidation : RError → Bool
  | .validation _ => true
  | _ => false

inductive HttpMethod where
  | GET | POST | PUT | PATCH | DELETE
deriving DecidableEq

/-- The string form of the `HttpMethod` enum values (`types.ts`). -/
def HttpMethod.toStr : HttpMethod → String
  | .GET => "GET"
  | .POST => "POST"
  | .PUT => "PUT"
  | .PATCH => "PATCH"
  | .DELETE => "DELETE"

/-- Association-list lookup, mirroring JS object property read
(`o[k]`, first — and only — binding wins, JS objects have unique keys). -/
def alookup {κ α : Type} [DecidableEq κ] : List (κ × α) → κ → Option α
  | [], _ => none
  | (k', v) :: rest, k => if k' = k then some v else alookup rest k

/-- Association-list write, mirroring JS object property assignment
(`o[k] = v`): updates in place if the key exists, else appends. -/
def setKey {κ α : Type} [DecidableEq κ] : List (κ × α) → κ → α → List (κ × α)
  | [], k, v => [(k, v)]
  | (k', v') :: rest, k, v =>
      if k' = k then (k, v) :: rest else (k', v') :: setKey rest k v

/-- Association-list delete, mirroring `Map.delete` / `delete o[k]`. -/
def delKey {κ α : Type} [DecidableEq κ] : List (κ × α) → κ → List (κ × α)
  | [], _ => []
  | (k', v) :: rest, k => if k' = k then delKey rest k else (k', v) :: delKey rest k

/-! ## Character-level string helpers

Kernel-reducible equivalents of the JS string operations the source uses
(`toLowerCase`, `startsWith`, `slice`, `trim`, numeric parsing), defined
by structural recursion over the character list so that concrete runs of
the engine evaluate definitionally. -/

def strToLower (s : String) : String := String.mk (s.toList.map Char.toLower)

def strStartsWith (s p : String) : Bool := p.toList.isPrefixOf s.toList

def strDrop (s : String) (n : Nat) : String := String.mk (s.toList.drop n)

def isWsChar (c : Char) : Bool := c = ' ' ∨ c = '\t' ∨ c = '\n' ∨ c = '\r'

def jsTrim (s : String) : String :=
  String.mk (((s.toList.dropWhile isWsChar).reverse.dropWhile isWsChar).reverse)

def digitsToNat (cs : List Char) : Nat :=
  cs.foldl (fun n c => n * 10 + (c.toNat - 48)) 0

/-- `String.toNat?` on the model's strings. -/
def strToNat? (s : String) : Option Nat :=
  if s.toList ≠ [] ∧ s.toList.all Char.isDigit then some (digitsToNat s.toList)
  else none

/-! ## lodash.get (`extractNestedValue`) -/

/-- The character scanner behind `_.toPath`: `.` and `[` separate
segments, `]` is dropped. -/
def toPathAux : List Char → List Char → List String
  | [], cur => [String.mk cur.reverse]
  | c :: rest, cur =>
      if c = '.' ∨ c = '[' then String.mk cur.reverse :: toPathAux rest []
      else if c = ']' then toPathAux rest cur
      else toPathAux rest (c :: cur)

/-- `_.toPath`: `"data.data[0]"` becomes `["data","data","0"]`; the empty
string becomes the empty path. -/
def toPath (s : String) : List String :=
  if s = "" then [] else toPathAux s.toList []

/-- One property-access step `v[k]` as `lodash.get` performs it. -/
def getStep (v : JValue) (k : String) : JValue :=
  match v with
  | .obj kvs => (alookup kvs k).getD .undef
  | .arr xs =>
      match strToNat? k with
      | some i => xs.getD i .undef
      | none => .undef
  | _ => (.undef)

/-- Walk a path; `null`/`undefined` intermediates stop the walk with
`undefined`, as in lodash's `baseGet`. -/
def getPath : JValue → List String → JValue
  | v, [] => v
  | .nul, _ :: _ => .undef
  | .undef, _ :: _ => .undef
  | v, k :: ks => getPath (getStep v k) ks

/-- `lodashGet data path` (`extractNestedValue` in both engine drafts).
`_.get(x, "")` is `undefined`. -/
def lodashGet (v : JValue) (path : String) : JValue :=
  match toPath path with
  | [] => .undef
  | ps => getPath v ps

/-! ## Host-language conversions (`Boolean`, `String`, `Number`) -/

/-- JS truthiness (used by `Boolean(value)`).  `NaN` is not representable
in the model's number domain, so `num` is falsy exactly at `0`. -/
def jsTruthy : JValue → Bool
  | .nul => false
  | .undef => false
  | .bool b => b
  | .num q => !(q == 0)
  | .str s => !(s == "")
  | .arr _ => true
  | .obj _ => true

/-- Decimal rendering of a model number (JS prints integral doubles
without a fractional part). -/
def ratToString (q : Rat) : String :=
  if q.den = 1 then toString q.num else toString q

mutual
/-- `String(value)` on the model's value domain. -/
def jsToString : JValue → String
  | .nul => "null"
  | .undef => "undefined"
  | .bool b => if b then "true" else "false"
  | .num q => ratToString q
  | .str s => s
  | .arr xs => jsToStringList xs
  | .obj _ => "[object Object]"

/-- `Array.prototype.toString`: elements joined with `","`; `null` and
`undefined` elements render as the empty string. -/
def jsToStringList : List JValue → String
  | [] => ""
  | [x] =>
      match x with
      | .nul => ""
      | .undef => ""
      | v => jsToString v
  | x :: y :: rest =>
      (match x with
       | .nul => ""
       | .undef => ""
       | v => jsToString v) ++ "," ++ jsToStringList (y :: rest)
end

/-- Split a character list at `.` separators. -/
def splitOnDot : List Char → List Char → List (List Char)
  | [], cur => [cur.reverse]
  | c :: rest, cur =>
      if c = '.' then cur.reverse :: splitOnDot rest []
      else splitOnDot rest (c :: cur)

/-- Numeric parse of a trimmed string: optional sign, digits, optional
fraction; anything else is `NaN` (`none`).  The empty string is `0`. -/
def strToNumCore (t : String) : Option Rat :=
  if t = "" then some 0
  else
    let (sgn, body) : Rat × List Char :=
      if strStartsWith t "-" then (-1, t.toList.drop 1)
      else if strStartsWith t "+" then (1, t.toList.drop 1) else (1, t.toList)
    match splitOnDot body [] with
    | [ip] =>
        if ip ≠ [] ∧ ip.all Char.isDigit then
          some (sgn * ((digitsToNat ip : Nat) : Rat))
        else none
    | [ip, fp] =>
        if (ip ++ fp) ≠ [] ∧ ip.all Char.isDigit ∧ fp.all Char.isDigit then
          some (sgn * (((digitsToNat ip : Nat) : Rat) +
            (mkRat (digitsToNat fp) (10 ^ fp.length))))
        else none
    | _ => none

/-- `Number(value)`: `none` models `NaN`.  Arrays convert through their
string rendering, objects are `NaN`, exactly as in JS. -/
def jsToNumber : JValue → Option Rat
  | .nul => some 0
  | .undef => none
  | .bool b => some (if b then 1 else 0)
  | .num q => some q
  | .str s => strToNumCore (jsTrim s)
  | .arr xs => strToNumCore (jsTrim (jsToStringList xs))
  | .obj _ => none

/-- Minimal JSON escaping for serialised strings. -/
def jsonEscape (s : String) : String :=
  s.toList.foldl (fun acc c =>
    if c = '"' then acc ++ "\\" ++ "\x22"
    else if c = '\\' then acc ++ "\\\\"
    else acc.push c) ""

mutual
/-- `JSON.stringify` on the model domain (`undefined` object entries are
omitted, as in JS). -/
def jsonStringify : JValue → String
  | .nul => "null"
  | .undef => "null"
  | .bool b => if b then "true" else "false"
  | .num q => ratToString q
  | .str s => "\x22" ++ jsonEscape s ++ "\x22"
  | .arr xs => "[" ++ jsonStringifyArr xs ++ "]"
  | .obj kvs => "\x7b" ++ jsonStringifyObj kvs ++ "\x7d"

def jsonStringifyArr : List JValue → String
  | [] => ""
  | [x] => jsonStringify x
  | x :: y :: rest => jsonStringify x ++ "," ++ jsonStringifyArr (y :: rest)

def jsonStringifyObj : List (String × JValue) → String
  | [] => ""
  | (_, .undef) :: rest => jsonStringifyObj rest
  | (k, v) :: rest =>
      let entry := "\x22" ++ jsonEscape k ++ "\x22:" ++ jsonStringify v
      match rest with
      | [] => entry
      | _ =>
          let tail := jsonStringifyObj rest
          if tail = "" then entry else entry ++ "," ++ tail
end

/-! ## Schema data model (from `src/src/core/types.ts` usage in the engines) -/

/-- `SchemaField` — `isResource` is optional in TS (absent ≡ `false`);
`fromPath` embeds the optional `from` property. -/
structure SchemaField where
  type : String
  fromPath : Option String := none
  transform : Option String := none
  isNullable : Bool := true
  isResource : Bool := false

structure Endpoint where
  method : HttpMethod
  path : String

structure SchemaResource where
  fields : List (String × SchemaField)
  endpoints : List (HttpMethod × Endpoint)
  dataPath : Option String := none
  transform : Option String := none

structure ValueType where
  fields : List (String × SchemaField)
  transform : Option String := none

/-- The parsed schema: top-level resources (lower-cased keys) plus the
reserved `_types` mapping (original-case keys). -/
structure Schema where
  resources : List (String × SchemaResource)
  types : List (String × ValueType)

/-- The common shape `SchemaResource | ValueType` that `shapeData`
consumes (it only reads `fields` and `transform`). -/
structure ResShape where
  fields : List (String × SchemaField)
  transform : Option String

def SchemaResource.toShape (r : SchemaResource) : ResShape := ⟨r.fields, r.transform⟩
def ValueType.toShape (v : ValueType) : ResShape := ⟨v.fields, v.transform⟩

/-- `type.replace(/[\[\]!]/g, "")` — strip array brackets and `!`. -/
def stripTypeMarks (t : String) : String :=
  String.mk (t.toList.filter (fun c => c ≠ '[' ∧ c ≠ ']' ∧ c ≠ '!'))

/-- `type.replace(/[\[\]]/g, "")` — strip array brackets only (the form
used by `restQl.ts`'s value-type branch). -/
def stripBrackets (t : String) : String :=
  String.mk (t.toList.filter (fun c => c ≠ '[' ∧ c ≠ ']'))

/-! ## Parsed operations (from `src/src/core/parser/Parser.ts`) -/

/-- A field selection: `{args, value: true}` (leaf) or `{args, fields}`
(nested), exactly the two shapes `extractFields` produces. -/
inductive FieldSel where
  | leaf (args : List (String × String))
  | node (args : List (String × String)) (fields : List (String × FieldSel))

structure ParsedQuery where
  queryName : String
  args : List (String × String)
  fields : List (String × FieldSel)

/-- `VariableDefinition` — `isRequired` is set by the parser exactly when
the declared type ends in `!`. -/
structure VariableDefinition where
  type : String
  isRequired : Bool

structure ParsedOperation where
  operationType : String
  operationName : String
  varDecls : List (String × VariableDefinition)
  queries : List ParsedQuery

/-- Caller-supplied variable map (values may be `undef`, i.e. the caller
passed `undefined` explicitly). -/
def VarMap : Type := List (String × JValue)

/-- JS-value encoding of an argument map (argument values are strings). -/
def argsToJ (args : List (String × String)) : JValue :=
  .obj (args.map (fun kv => (kv.1, .str kv.2)))

mutual
/-- JS-value encoding of a selection node, as the parser builds it: a
leaf is `\x7bargs, value: true\x7d`, a nested node is `\x7bargs, fields\x7d`. -/
def fieldSelToJ : FieldSel → JValue
  | .leaf args => .obj [("args", argsToJ args), ("value", .bool true)]
  | .node args fs =>
      .obj [("args", argsToJ args), ("fields", .obj (fieldsToJList fs))]

def fieldsToJList : List (String × FieldSel) → List (String × JValue)
  | [] => []
  | (k, s) :: rest => (k, fieldSelToJ s) :: fieldsToJList rest
end

/-- JS-value encoding of a `fields` map. -/
def fieldsToJ (fs : List (String × FieldSel)) : JValue :=
  .obj (fieldsToJList fs)

/-! ## Environment, call-counting monad, engine state -/

/-- A user-supplied transform function `(raw, shaped, rawResponses) => any`
(JS functions ignore missing arguments; a 2-argument call passes `undef`
as third argument). -/
def Transformer : Type := JValue → JValue → JValue → JValue

/-- The engine environment: the parsed schema, the transformer registry,
the deterministic transport collaborator (request in, decoded JSON or
`NetworkError` out), and the cache TTL (`options.cacheTimeout`). -/
structure Env where
  schema : Schema
  transformers : List (String × Transformer)
  transport : String → HttpMethod → List (String × JValue) → Except RError JValue
  ttl : Nat

/-- Transport-counting computation: the state is the number of transport
calls issued so far. -/
def MT (α : Type) : Type := Nat → Except RError α × Nat

def MT.pure {α : Type} (a : α) : MT α := fun n => (.ok a, n)

def MT.bind {α β : Type} (x : MT α) (f : α → MT β) : MT β := fun n =>
  match x n with
  | (.ok a, n') => f a n'
  | (.error e, n') => (.error e, n')

def MT.throw {α : Type} (e : RError) : MT α := fun n => (.error e, n)

/-- JS `try { x } catch (e) { h e }`: side effects performed before the
throw persist. -/
def MT.tryCatch {α : Type} (x : MT α) (h : RError → MT α) : MT α := fun n =>
  match x n with
  | (.ok a, n') => (.ok a, n')
  | (.error e, n') => h e n'

def MT.ofExcept {α : Type} : Except RError α → MT α
  | .ok a => MT.pure a
  | .error e => MT.throw e

/-- Issue one transport call through the environment's oracle. -/
def MT.callTransport (env : Env) (name : String) (method : HttpMethod)
    (args : List (String × JValue)) : MT JValue := fun n =>
  (env.transport name method args, n + 1)

def MT.mapM {α β : Type} (f : α → MT β) : List α → MT (List β)
  | [] => MT.pure []
  | x :: xs => MT.bind (f x) fun y => MT.bind (MT.mapM f xs) fun ys => MT.pure (y :: ys)

/-- A cache entry `{data, expiry}` keyed by cache key. -/
def CacheT : Type := List (String × JValue × Nat)

/-- Engine state: the cache, the transport-call count and the number of
operations enqueued through the batch manager. -/
structure St where
  cache : CacheT
  calls : Nat
  batched : Nat

def M (α : Type) : Type := St → Except RError α × St

def M.pure {α : Type} (a : α) : M α := fun st => (.ok a, st)

def M.bind {α β : Type} (x : M α) (f : α → M β) : M β := fun st =>
  match x st with
  | (.ok a, st') => f a st'
  | (.error e, st') => (.error e, st')

def M.throw {α : Type} (e : RError) : M α := fun st => (.error e, st)

def M.ofExcept {α : Type} : Except RError α → M α
  | .ok a => M.pure a
  | .error e => M.throw e

/-- Lift a transport-only computation into the full engine state; by
construction it cannot touch the cache (faithful: neither `shapeData` nor
`executeQueryField` in either draft accesses the cache). -/
def M.liftT {α : Type} (x : MT α) : M α := fun st =>
  match x st.calls with
  | (r, n') => (r, { st with calls := n' })

/-- `BatchManager.add` as determinised by the model: the enqueued closure
runs inline (single-threaded flush), and the enqueue is counted. -/
def M.batchAdd {α : Type} (_key : String) (op : M α) : M α := fun st =>
  op { st with batched := st.batched + 1 }

/-! ## CacheManager (`src/CacheManager.ts`) -/

/-- `get`: absent key and expired entry (deleted on access) read as
`none` (TS `null`); a live entry yields its stored data. -/
def cacheGetCore (now : Nat) (c : CacheT) (k : String) : Option JValue × CacheT :=
  match alookup c k with
  | none => (none, c)
  | some (v, expiry) =>
      if now > expiry then (none, delKey c k) else (some v, c)

/-- The observable value of `get` for JSON-valued caches: TS returns
`entry.data` or `null`, collapsing the `none` cases to `null`. -/
def cacheGetValue (now : Nat) (c : CacheT) (k : String) : JValue × CacheT :=
  match cacheGetCore now c k with
  | (none, c') => (.nul, c')
  | (some v, c') => (v, c')

/-- `has`: like `get` but returns presence, with the same lazy expiry
deletion. -/
def cacheHasCore (now : Nat) (c : CacheT) (k : String) : Bool × CacheT :=
  match alookup c k with
  | none => (false, c)
  | some (_, expiry) =>
      if now > expiry then (false, delKey c k) else (true, c)

/-- `set(key, value)` with the default TTL: `expiry = Date.now() + ttl`. -/
def cacheSetCore (now ttl : Nat) (c : CacheT) (k : String) (v : JValue) : CacheT :=
  setKey c k (v, now + ttl)

def M.cacheHas (now : Nat) (k : String) : M Bool := fun st =>
  match cacheHasCore now st.cache k with
  | (b, c') => (.ok b, { st with cache := c' })

def M.cacheGetJ (now : Nat) (k : String) : M JValue := fun st =>
  match cacheGetValue now st.cache k with
  | (v, c') => (.ok v, { st with cache := c' })

def M.cacheGetOpt (now : Nat) (k : String) : M (Option JValue) := fun st =>
  match cacheGetCore now st.cache k with
  | (v, c') => (.ok v, { st with cache := c' })

def M.cacheSet (env : Env) (now : Nat) (k : String) (v : JValue) : M Unit := fun st =>
  (.ok (), { st with cache := cacheSetCore now env.ttl st.cache k v })

/-! ## Mutation-name parsing (identical in both engine drafts) -/

/-- `parseMutationType(mutationName)`: the operation-type candidates in
their fixed order, matched as lower-cased prefixes; the suffix is sliced
from the original-case name. -/
def parseMutationType (mutationName : String) : Except RError (String × String) :=
  if strStartsWith (strToLower mutationName) "create" then
    .ok ("create", strDrop mutationName 6)
  else if strStartsWith (strToLower mutationName) "update" then
    .ok ("update", strDrop mutationName 6)
  else if strStartsWith (strToLower mutationName) "patch" then
    .ok ("patch", strDrop mutationName 5)
  else if strStartsWith (strToLower mutationName) "delete" then
    .ok ("delete", strDrop mutationName 6)
  else
    .error (.generic ("Unknown mutation type: " ++ mutationName))

/-- `getHttpMethodForOperation(operationType)`. -/
def getHttpMethodForOperation (operationType : String) : Except RError HttpMethod :=
  if operationType = "create" then .ok .POST
  else if operationType = "update" then .ok .PUT
  else if operationType = "patch" then .ok .PATCH
  else if operationType = "delete" then .ok .DELETE
  else .error (.generic ("Unsupported operation type: " ++ operationType))

/-! ## Executor (`RestQLExecutor.execute`, uncited collaborator wrapper)

The executor checks the endpoint, resolves `$var` references left in the
argument values against the variable map (an unsupplied variable reads as
`undefined`), and performs the HTTP exchange; URL construction and
query-string/body encoding live inside the transport oracle. -/

def executorResolveArg (vars : VarMap) (v : JValue) : JValue :=
  match v with
  | .str s =>
      if strStartsWith s "$" then (alookup vars (strDrop s 1)).getD .undef else .str s
  | v => v

def executorExecute (env : Env) (queryName : String)
    (args : List (String × JValue)) (vars : VarMap) (method : HttpMethod)
    (rs : SchemaResource) : MT JValue :=
  match alookup rs.endpoints method with
  | none =>
      MT.throw (.generic (method.toStr ++ " endpoint not found for resource \x22" ++
        queryName ++ "\x22."))
  | some _ =>
      MT.callTransport env queryName method
        (args.map (fun kv => (kv.1, executorResolveArg vars kv.2)))

/-! ## SDL type storage (`SDLParser.parseTypeDefinition`, lines 75–106) -/

/-- One syntactically valid `type` block as the character-level scanner
accumulates it: the written name, the endpoints registered by `@endpoint`
directives, the declared fields, the type-level transform, and the last
`@endpoint`'s dataPath. -/
structure TypeBlock where
  name : String
  endpoints : List (HttpMethod × Endpoint)
  fields : List (String × SchemaField)
  transform : Option String := none
  dataPath : Option String := none

/-- The storage decision after a block's closing `}`: a non-empty
endpoints map stores a `SchemaResource` under the lower-cased name, else
the endpoints entry is removed and a `ValueType` is stored under the
original-case name in `_types`. -/
def storeTypeBlock (s : Schema) (b : TypeBlock) : Schema :=
  if b.endpoints.length > 0 then
    let r : SchemaResource :=
      { fields := b.fields, endpoints := b.endpoints,
        dataPath := b.dataPath, transform := b.transform }
    { s with resources := setKey s.resources (strToLower b.name) r }
  else
    let v : ValueType := { fields := b.fields, transform := b.transform }
    { s with types := setKey s.types b.name v }

/-- `parseSDL` on an already-scanned sequence of type blocks: the parse
loop stores each block in order into the schema. -/
def parseSDLBlocks (bs : List TypeBlock) : Schema :=
  bs.foldl storeTypeBlock ⟨[], []⟩

/-! ## BatchManager (`src/src/core/batch/BatchManager.ts`) -/

/-- Settlement status of a queued operation's promise. -/
inductive PromiseState where
  | resolved (v : JValue)
  | rejected (msg : String)

/-- Batch-manager state: the per-key queues of pending wrapped operations
(identified by id), whether the shared flush timer is armed, and the
settlement of each promise (`alookup … = none` means still pending). -/
structure BMState where
  queue : List (String × List Nat)
  timer : Bool
  settled : List (Nat × PromiseState)

def BMState.empty : BMState := ⟨[], false, []⟩

/-- Run the queued operations of one key (`Promise.all` over the snapshot;
the aggregate error is only logged, each operation settles its own
promise). -/
def bmRunKey (ops : Nat → Except String JValue) (st : BMState) (key : String) :
    BMState :=
  let pending := (alookup st.queue key).getD []
  let st := { st with queue := delKey st.queue key }
  { st with settled :=
      pending.foldl (fun acc id =>
        match ops id with
        | .ok v => setKey acc id (.resolved v)
        | .error m => setKey acc id (.rejected m)) st.settled }

/-- `executeBatch(specificKey?)`: clear the timer, flush the selected
key(s), then re-arm the timer if other keys still have pending work. -/
def bmExecuteBatch (ops : Nat → Except String JValue) (specificKey : Option String)
    (st : BMState) : BMState :=
  let st := { st with timer := false }
  let keys := match specificKey with
    | some k => [k]
    | none => st.queue.map Prod.fst
  let st := keys.foldl (bmRunKey ops) st
  if st.queue.length > 0 then { st with timer := true } else st

/-- `add(key, operation)`: enqueue the wrapped operation; flush the key
immediately when it reaches `maxBatchSize`, else arm the timer if it is
not running.  `maxB = none` models `maxBatchSize = Infinity`. -/
def bmAdd (maxB : Option Nat) (ops : Nat → Except String JValue) (key : String)
    (id : Nat) (st : BMState) : BMState :=
  let q := (alookup st.queue key).getD []
  let q' := q ++ [id]
  let st := { st with queue := setKey st.queue key q' }
  match maxB with
  | some m =>
      if q'.length ≥ m then bmExecuteBatch ops (some key) st
      else if !st.timer then { st with timer := true } else st
  | none => if !st.timer then { st with timer := true } else st

/-- `cancel(key)` as written in `src/src/core/batch/BatchManager.ts`
lines 65–71: delete the key's queue and clear the timer when nothing
remains pending.  Note that it does NOT touch `settled`. -/
def bmCancel (key : String) (st : BMState) : BMState :=
  let st := { st with queue := delKey st.queue key }
  if st.queue.length = 0 ∧ st.timer then { st with timer := false } else st

/-! ## Engine draft A — `RestQL` from `src/unnamed/part_001` -/

namespace RQA

/-- `coerceValue(value, fieldSchema)` (part_001 lines 424–453):
`null`/`undefined` are handled before any type dispatch; `Boolean`,
`String` and `Int` coerce through the host conversions; other (custom)
types pass through unchanged. -/
def coerceValue (value : JValue) (fschema : SchemaField) : Except RError JValue :=
  match value with
  | .nul =>
      if !fschema.isNullable then
        .error (.validation "Non-nullable field received null or undefined value")
      else .ok .nul
  | .undef =>
      if !fschema.isNullable then
        .error (.validation "Non-nullable field received null or undefined value")
      else .ok .nul
  | v =>
      let baseType := stripTypeMarks fschema.type
      if baseType = "Boolean" then .ok (.bool (jsTruthy v))
      else if baseType = "String" then .ok (.str (jsToString v))
      else if baseType = "Int" then
        match jsToNumber v with
        | none => .error (.validation "Invalid integer value")
        | some q =>
            if q.den ≠ 1 then .error (.validation "Invalid integer value")
            else .ok (.num q)
      else .ok v

/-- `resolveVariables(args, variables)` (part_001 lines 547–565): a `$var`
reference whose variable is not supplied is silently skipped; everything
else is copied. -/
def resolveVariables (args : List (String × String)) (vars : VarMap) :
    List (String × JValue) :=
  args.foldl (fun acc kv =>
    if strStartsWith kv.2 "$" then
      match alookup vars (strDrop kv.2 1) with
      | some jv => setKey acc kv.1 jv
      | none => acc
    else setKey acc kv.1 (.str kv.2)) []

/-- `getCacheKey(fieldName, args, variables)` (part_001 lines 538–545). -/
def getCacheKey (fieldName : String) (args : List (String × String))
    (vars : VarMap) : String :=
  fieldName ++ ":" ++ jsonStringify (.obj (resolveVariables args vars))

/-- `validateVariables(declared, provided)` (part_001 lines 122–140):
the first declared-required variable missing from the provided map raises
a `ValidationError`. -/
def validateVariables (decls : List (String × VariableDefinition))
    (provided : VarMap) : Except RError Unit :=
  match decls with
  | [] => .ok ()
  | (n, vd) :: rest =>
      if vd.isRequired ∧ (alookup provided n).isNone then
        .error (.validation ("Required variable " ++ n ++ " is not provided"))
      else validateVariables rest provided

/-- The variable filtering in `execute` (part_001 lines 92–94): entries
whose value is `undefined` are dropped. -/
def filterUndef (vars : VarMap) : VarMap :=
  vars.filter (fun kv => match kv.2 with | .undef => false | _ => true)

mutual
/-- `cherryPickFields(data, fields)` (part_001 lines 270–315): non-object
data is returned as-is; otherwise only requested fields are copied —
leaf-marked fields verbatim, nested selections recursively (mapping over
arrays), non-object values under nested selections verbatim. -/
def cherryPickFields (dat : JValue) (fields : List (String × FieldSel)) : JValue :=
  match dat with
  | .obj kvs => .obj (cherryPickLoop (.obj kvs) fields [])
  | .arr xs => .obj (cherryPickLoop (.arr xs) fields [])
  | v => v
termination_by (sizeOf fields, 1)

def cherryPickLoop (dat : JValue) (fields : List (String × FieldSel))
    (acc : List (String × JValue)) : List (String × JValue) :=
  match fields with
  | [] => acc
  | (fname, sel) :: rest =>
      let dv := getStep dat fname
      let acc' :=
        match sel with
        | .leaf _ => setKey acc fname dv
        | .node _ nfs =>
            match dv with
            | .arr xs => setKey acc fname (.arr (xs.map (fun x => cherryPickFields x nfs)))
            | .obj kvs => setKey acc fname (cherryPickFields (.obj kvs) nfs)
            | w => setKey acc fname w
      cherryPickLoop dat rest acc'
termination_by (sizeOf fields, 0)
end

end RQA

namespace RQA

/-- The field-level transform application at the end of one field's
processing (part_001 lines 387–393): the transformer's whole return value
replaces the field value in this draft. -/
def applyFieldTransform (env : Env) (dat : JValue) (fname : String)
    (fschema : SchemaField) (rawResps : JValue) (rawValue2 : JValue) : JValue :=
  match fschema.transform with
  | some t =>
      match alookup env.transformers t with
      | some f => f dat (.obj [(fname, rawValue2)]) rawResps
      | none => rawValue2
  | none => rawValue2

/-- The resource/value-type-level transform at the end of `shapeData`
(part_001 lines 409–421). -/
def applyResourceTransform (env : Env) (dat : JValue) (rshape : ResShape)
    (rawResps : JValue) (shaped : List (String × JValue)) : JValue :=
  match rshape.transform with
  | some t =>
      match alookup env.transformers t with
      | some f => f dat (.obj shaped) rawResps
      | none => .obj shaped
  | none => .obj shaped

/-- The recursive core of the draft-A engine at one fuel level:
`shape` is `shapeData`, `fieldVal` is the body of one field's `try` block
inside `shapeData`, and `exeQF` is `executeQueryField`. -/
structure AFns where
  shape : JValue → Option (List (String × FieldSel)) → ResShape → VarMap →
    JValue → MT JValue
  fieldVal : JValue → String → FieldSel → SchemaField → VarMap → JValue →
    MT JValue
  exeQF : String → Option (List (String × FieldSel)) →
    List (String × String) → VarMap → SchemaResource → MT (JValue × JValue)

/-- The per-field loop of `shapeData` (part_001 lines 334–407) over a
given field processor: unknown fields are skipped with a warning; a
`ValidationError` thrown by a field's processing is swallowed (the field
becomes `null`) when the field is nullable and propagates otherwise. -/
def shapeFieldsFold (step : JValue → String → FieldSel → SchemaField → MT JValue)
    (dat : JValue) (rshape : ResShape) :
    List (String × FieldSel) → List (String × JValue) →
    MT (List (String × JValue))
  | [], acc => MT.pure acc
  | (fname, fsel) :: rest, acc =>
      match alookup rshape.fields fname with
      | none => shapeFieldsFold step dat rshape rest acc
      | some fschema =>
          MT.bind
            (MT.tryCatch (step dat fname fsel fschema)
              (fun e =>
                if e.isValidation then
                  if !fschema.isNullable then MT.throw e else MT.pure JValue.nul
                else MT.throw e))
            fun v => shapeFieldsFold step dat rshape rest (setKey acc fname v)

/-- The draft-A engine core (part_001 `shapeData` lines 317–422, the
per-field `try` body lines 346–395, and `executeQueryField` lines
455–505), built by structural recursion on fuel so that concrete runs
reduce definitionally; every cross-call steps down one fuel level. -/
def mkAFns (env : Env) : Nat → AFns
  | 0 =>
      { shape := fun _ _ _ _ _ => MT.throw .outOfFuel,
        fieldVal := fun _ _ _ _ _ _ => MT.throw .outOfFuel,
        exeQF := fun _ _ _ _ _ => MT.throw .outOfFuel }
  | fuel + 1 =>
      let prev := mkAFns env fuel
      { shape := fun dat qfields rshape vars rawResps =>
          match dat with
          | .arr xs =>
              MT.bind
                (MT.mapM (fun x => prev.shape x qfields rshape vars rawResps) xs)
                fun ys => MT.pure (.arr ys)
          | _ =>
            match qfields with
            | none => MT.throw (.generic "TypeError: Object.entries of undefined")
            | some fs =>
                MT.bind
                  (shapeFieldsFold
                    (fun d fname fsel fschema =>
                      prev.fieldVal d fname fsel fschema vars rawResps)
                    dat rshape fs [])
                  fun shaped =>
                    MT.pure (applyResourceTransform env dat rshape rawResps shaped),
        fieldVal := fun dat fname fsel fschema vars rawResps =>
          MT.bind
            (MT.ofExcept (coerceValue (lodashGet dat (fschema.fromPath.getD fname)) fschema))
            fun rawValue =>
          MT.bind
            (if fschema.isResource ∨
                (alookup env.schema.resources (strToLower fschema.type)).isSome then
               match alookup env.schema.resources (strToLower fschema.type) with
               | some nrs =>
                   let nestedFields : Option (List (String × FieldSel)) :=
                     match fsel with | .leaf _ => none | .node _ nfs => some nfs
                   let nestedArgs := match fsel with | .leaf a => a | .node a _ => a
                   MT.bind (prev.exeQF fname nestedFields nestedArgs vars nrs)
                     fun res => MT.pure res.1
               | none => MT.pure rawValue
             else
               match fsel with
               | .node _ nfs =>
                   let nestedType := stripTypeMarks fschema.type
                   (match alookup env.schema.types nestedType with
                    | some nvt =>
                        prev.shape rawValue (some nfs) nvt.toShape vars rawResps
                    | none => MT.pure rawValue)
               | .leaf _ => MT.pure rawValue)
            fun rawValue2 =>
              MT.pure (applyFieldTransform env dat fname fschema rawResps rawValue2),
        exeQF := fun fieldName qfields args vars rs =>
          match alookup rs.endpoints HttpMethod.GET with
          | none =>
              MT.throw (.generic ("GET endpoint not found for resource \x22" ++ fieldName ++ "\x22."))
          | some _ =>
              let resolvedArgs := resolveVariables args vars
              MT.bind (executorExecute env fieldName resolvedArgs vars .GET rs)
                fun result =>
              let extracted := lodashGet result (rs.dataPath.getD "")
              MT.bind
                (prev.shape extracted qfields rs.toShape vars
                  (.obj [(fieldName, result)]))
                fun shaped => MT.pure (shaped, result) }

/-- `shapeData(data, query, resourceSchema, variables, rawResponses)`
(part_001 lines 317–422) at a given fuel level.  The `query.fields`
parameter is `none` when the caller passed a leaf selection through
(JS `undefined`, whose `Object.entries` throws). -/
def shapeData (env : Env) (fuel : Nat) (dat : JValue)
    (qfields : Option (List (String × FieldSel))) (rshape : ResShape)
    (vars : VarMap) (rawResps : JValue) : MT JValue :=
  (mkAFns env fuel).shape dat qfields rshape vars rawResps

/-- `executeQueryField(fieldName, fields, args, variables, resourceSchema)`
(part_001 lines 455–505): requires a GET endpoint, resolves arguments
leniently, performs the GET, extracts `dataPath`, shapes, and returns
both the shaped tree and the raw response. -/
def executeQueryField (env : Env) (fuel : Nat) (fieldName : String)
    (qfields : Option (List (String × FieldSel)))
    (args : List (String × String)) (vars : VarMap) (rs : SchemaResource) :
    MT (JValue × JValue) :=
  (mkAFns env fuel).exeQF fieldName qfields args vars rs

end RQA

namespace RQA

/-- The per-query loop of `executeQuery` (part_001 lines 142–185),
determinised: each enqueued batch closure runs inline at its enqueue
point.  A cache hit copies `shapedData`/`rawResponse` from the cached
entry; a miss resolves the field and (when caching) stores the pair. -/
def executeQueryGo (env : Env) (now fuel : Nat) (vars : VarMap) (useCache : Bool) :
    List ParsedQuery → List (String × JValue) → List (String × JValue) →
    M (List (String × JValue) × List (String × JValue))
  | [], results, rawResps => M.pure (results, rawResps)
  | q :: qs, results, rawResps =>
      match alookup env.schema.resources (strToLower q.queryName) with
      | none => M.throw (.generic ("Resource \x22" ++ q.queryName ++ "\x22 not found in schema."))
      | some rs =>
          let cacheKey := getCacheKey q.queryName q.args vars
          M.bind (if useCache then M.cacheHas now cacheKey else M.pure false) fun hit =>
          if hit then
            M.bind (M.cacheGetOpt now cacheKey) fun cached =>
            match cached with
            | some cv =>
                executeQueryGo env now fuel vars useCache qs
                  (setKey results q.queryName (getStep cv "shapedData"))
                  (setKey rawResps q.queryName (getStep cv "rawResponse"))
            | none => M.throw (.generic "TypeError: cannot read properties of null")
          else
            M.bind
              (M.batchAdd q.queryName
                (M.bind (M.liftT (executeQueryField env fuel q.queryName (some q.fields)
                    q.args vars rs)) fun res =>
                 M.bind
                   (if useCache then
                      M.cacheSet env now cacheKey
                        (.obj [("shapedData", res.1), ("rawResponse", res.2)])
                    else M.pure ())
                   fun _ => M.pure res))
              fun res =>
                executeQueryGo env now fuel vars useCache qs
                  (setKey results q.queryName res.1)
                  (setKey rawResps q.queryName res.2)

/-- The body of one mutation's batch closure (part_001 lines 198–237):
parse the mutation name, look up the resource (lower-cased suffix), map
the operation to an HTTP verb, require that verb's endpoint, execute,
extract `dataPath`, shape, and cherry-pick. -/
def mutationOp (env : Env) (fuel : Nat) (vars : VarMap) (m : ParsedQuery) :
    MT JValue :=
  MT.bind (MT.ofExcept (parseMutationType m.queryName)) fun pr =>
  match alookup env.schema.resources (strToLower pr.2) with
  | none => MT.throw (.generic ("Resource \x22" ++ pr.2 ++ "\x22 not found in schema."))
  | some rs =>
      MT.bind (MT.ofExcept (getHttpMethodForOperation pr.1)) fun method =>
      match alookup rs.endpoints method with
      | none =>
          MT.throw (.generic (method.toStr ++ " endpoint not found for resource \x22" ++
            pr.2 ++ "\x22."))
      | some _ =>
          MT.bind
            (executorExecute env m.queryName
              (m.args.map (fun kv => (kv.1, .str kv.2))) vars method rs)
            fun result =>
          let extracted := lodashGet result (rs.dataPath.getD "")
          MT.bind (shapeData env fuel extracted (some m.fields) rs.toShape vars (.obj []))
            fun shaped => MT.pure (cherryPickFields shaped m.fields)

/-- The per-mutation loop of `executeMutation` (part_001 lines 187–243),
determinised the same way; each result is cherry-picked before being
pushed. -/
def executeMutationGo (env : Env) (fuel : Nat) (vars : VarMap) :
    List ParsedQuery → List JValue → M (List JValue)
  | [], acc => M.pure acc
  | m :: ms, acc =>
      M.bind (M.batchAdd m.queryName (M.liftT (mutationOp env fuel vars m)))
        fun picked => executeMutationGo env fuel vars ms (acc ++ [picked])

/-- `execute(operationString, variables, options)` (part_001 lines
78–120), starting from the parsed operation: filter out `undefined`
variables, validate required declarations, then dispatch on the
operation type (queries return the shaped-data map, mutations the list of
cherry-picked results). -/
def execute (env : Env) (now fuel : Nat) (op : ParsedOperation) (vars : VarMap)
    (useCache : Bool) : M JValue :=
  let definedVars := filterUndef vars
  M.bind (M.ofExcept (validateVariables op.varDecls definedVars)) fun _ =>
  if op.operationType = "query" then
    M.bind (executeQueryGo env now fuel definedVars useCache op.queries [] [])
      fun res => M.pure (.obj res.1)
  else if op.operationType = "mutation" then
    M.bind (executeMutationGo env fuel definedVars op.queries []) fun results =>
    M.pure (.arr results)
  else
    M.throw (.validation ("Unsupported operation type: " ++ op.operationType))

end RQA

/-! ## Engine draft B — `RestQL` from `src/src/core/restQl.ts` -/

namespace RQB

/-- `resolveVariables(args, variables)` (restQl.ts lines 451–468): a
`$var` reference whose variable is not supplied throws a
`ValidationError` — the strict counterpart of `RQA.resolveVariables`. -/
def resolveVariables (args : List (String × String)) (vars : VarMap) :
    Except RError (List (String × JValue)) :=
  go args []
where
  go : List (String × String) → List (String × JValue) →
      Except RError (List (String × JValue))
  | [], acc => .ok acc
  | (k, v) :: rest, acc =>
      if strStartsWith v "$" then
        match alookup vars (strDrop v 1) with
        | none => .error (.validation ("Variable $" ++ strDrop v 1 ++ " is not defined"))
        | some jv => go rest (setKey acc k jv)
      else go rest (setKey acc k (.str v))

/-- `getCacheKey(fieldName, args, variables)` (restQl.ts lines 442–449);
it can throw through the strict `resolveVariables`. -/
def getCacheKey (fieldName : String) (args : List (String × String))
    (vars : VarMap) : Except RError String := do
  let resolved ← resolveVariables args vars
  return fieldName ++ ":" ++ jsonStringify (.obj resolved)

mutual
/-- `cherryPickFields(data, fields)` (restQl.ts lines 419–440): the
selection tree is traversed as a JS value; object-typed selection entries
recurse (mapping over arrays), other entries copy `data[field]`. -/
def cherryPickFields (dat : JValue) (fieldsJ : JValue) : JValue :=
  match fieldsJ with
  | .obj kvs => .obj (cherryPickLoop dat kvs [])
  | _ => .obj []
termination_by (sizeOf fieldsJ, 1)

def cherryPickLoop (dat : JValue) (entries : List (String × JValue))
    (acc : List (String × JValue)) : List (String × JValue) :=
  match entries with
  | [] => acc
  | (fname, fv) :: rest =>
      let acc' :=
        match fv with
        | .obj kvs =>
            (match getStep dat fname with
             | .arr xs => setKey acc fname (.arr (xs.map (fun x => cherryPickFields x (.obj kvs))))
             | dv => setKey acc fname (cherryPickFields dv (.obj kvs)))
        | .arr ys =>
            (match getStep dat fname with
             | .arr xs => setKey acc fname (.arr (xs.map (fun x => cherryPickFields x (.arr ys))))
             | dv => setKey acc fname (cherryPickFields dv (.arr ys)))
        | _ => setKey acc fname (getStep dat fname)
      cherryPickLoop dat rest acc'
termination_by (sizeOf entries, 0)
end

/-- The resource/value-type-level transform at the end of `RQB.shapeData`
(restQl.ts lines 373–383); called with two arguments, so the third
transformer parameter reads as `undefined`. -/
def applyResourceTransform (env : Env) (dat : JValue) (rshape : ResShape)
    (shaped : List (String × JValue)) : JValue :=
  match rshape.transform with
  | some t =>
      match alookup env.transformers t with
      | some f => f dat (.obj shaped) .undef
      | none => .obj shaped
  | none => .obj shaped

/-- One field of `RQB.shapeData`'s loop (restQl.ts lines 304–371), with
the nested fetch (`fetch`) and value-type shaping (`shapeVT`) supplied by
the caller's fuel level: resource-typed fields with an `undefined`
extracted value are fetched with a local catch that turns failures into
`null`, and only non-`null` values are assigned; value-type fields are
shaped recursively; a declared-and-registered transform overwrites the
field, otherwise only non-resource fields are assigned. -/
def shapeFieldStep (env : Env)
    (fetch : String → JValue → SchemaResource → MT JValue)
    (shapeVT : JValue → JValue → ResShape → MT JValue) (dat : JValue)
    (fname : String) (fieldValueJ : JValue) (fschema : SchemaField)
    (acc : List (String × JValue)) : MT (List (String × JValue)) :=
  let rawValue := lodashGet dat (fschema.fromPath.getD fname)
  let rCond := fschema.isResource ∨
    (alookup env.schema.resources (strToLower fschema.type)).isSome
  MT.bind
    (if rCond then
       match alookup env.schema.resources (strToLower fschema.type) with
       | some nrs =>
           MT.bind
             (match rawValue with
              | .undef =>
                  MT.tryCatch (fetch fname fieldValueJ nrs)
                    (fun _ => MT.pure JValue.nul)
              | rv => MT.pure rv)
             fun rv =>
               MT.pure (rv,
                 match rv with
                 | .nul => acc
                 | _ => setKey acc fname rv)
       | none => MT.pure (rawValue, acc)
     else
       match fieldValueJ with
       | .obj kvs =>
           (match alookup env.schema.types (stripBrackets fschema.type) with
            | some nvt =>
                MT.bind (shapeVT rawValue (.obj kvs) nvt.toShape)
                  fun rv => MT.pure (rv, acc)
            | none => MT.pure (rawValue, acc))
       | .arr ys =>
           (match alookup env.schema.types (stripBrackets fschema.type) with
            | some nvt =>
                MT.bind (shapeVT rawValue (.arr ys) nvt.toShape)
                  fun rv => MT.pure (rv, acc)
            | none => MT.pure (rawValue, acc))
       | _ => MT.pure (rawValue, acc))
    fun res =>
      MT.pure
        (match fschema.transform with
         | some t =>
             match alookup env.transformers t with
             | some f =>
                 setKey res.2 fname
                   (getStep (f dat (.obj [(fname, res.1)]) .undef) fname)
             | none => if rCond then res.2 else setKey res.2 fname res.1
         | none => if rCond then res.2 else setKey res.2 fname res.1)

/-- The per-field loop of `RQB.shapeData` (restQl.ts lines 304–371):
unknown fields are skipped with a warning. -/
def shapeFieldsFold (env : Env)
    (fetch : String → JValue → SchemaResource → MT JValue)
    (shapeVT : JValue → JValue → ResShape → MT JValue) (dat : JValue)
    (rshape : ResShape) :
    List (String × JValue) → List (String × JValue) →
    MT (List (String × JValue))
  | [], acc => MT.pure acc
  | (fname, fieldValueJ) :: rest, acc =>
      match alookup rshape.fields fname with
      | none => shapeFieldsFold env fetch shapeVT dat rshape rest acc
      | some fschema =>
          MT.bind (shapeFieldStep env fetch shapeVT dat fname fieldValueJ fschema acc)
            fun acc1 => shapeFieldsFold env fetch shapeVT dat rshape rest acc1

/-- The nested-resource pre-resolution loop of `executeQueryField`
(restQl.ts lines 253–276): requested fields whose schema marks them
`isResource` are resolved eagerly (no local catch) and written into the
extracted payload. -/
def preResolveFold (env : Env)
    (fetchV : String → JValue → SchemaResource → MT JValue)
    (rs : SchemaResource) :
    List (String × JValue) → JValue → MT JValue
  | [], extracted => MT.pure extracted
  | (fname, fieldValueJ) :: rest, extracted =>
      match alookup rs.fields fname with
      | none => preResolveFold env fetchV rs rest extracted
      | some fschema =>
          if fschema.isResource then
            match alookup env.schema.resources (strToLower fschema.type) with
            | some nrs =>
                MT.bind (fetchV fname fieldValueJ nrs) fun nres =>
                  preResolveFold env fetchV rs rest
                    (match extracted with
                     | .obj kvs => .obj (setKey kvs fname nres)
                     | other => other)
            | none => preResolveFold env fetchV rs rest extracted
          else preResolveFold env fetchV rs rest extracted

/-- The recursive core of the draft-B engine at one fuel level: `shape`
is `shapeData` (restQl.ts lines 290–386) and `exeQF` is
`executeQueryField` (lines 213–288), built by structural recursion on
fuel; every cross-call steps down one fuel level. -/
structure BFns where
  shape : JValue → JValue → ResShape → MT JValue
  exeQF : String → JValue → List (String × String) → VarMap →
    SchemaResource → MT JValue

def mkBFns (env : Env) : Nat → BFns
  | 0 =>
      { shape := fun _ _ _ => MT.throw .outOfFuel,
        exeQF := fun _ _ _ _ _ => MT.throw .outOfFuel }
  | fuel + 1 =>
      let prev := mkBFns env fuel
      { shape := fun dat qfieldsJ rshape =>
          match dat with
          | .arr xs =>
              MT.bind (MT.mapM (fun x => prev.shape x qfieldsJ rshape) xs)
                fun ys => MT.pure (.arr ys)
          | _ =>
            match qfieldsJ with
            | .nul => MT.throw (.generic "TypeError: Object.entries of null")
            | .undef => MT.throw (.generic "TypeError: Object.entries of undefined")
            | fj =>
                MT.bind
                  (shapeFieldsFold env
                    (fun fname fieldValueJ nrs =>
                      prev.exeQF fname fieldValueJ [] [] nrs)
                    (fun rv fv rsh => prev.shape rv fv rsh)
                    dat rshape (match fj with | .obj kvs => kvs | _ => []) [])
                  fun shaped => MT.pure (applyResourceTransform env dat rshape shaped),
        exeQF := fun fieldName fieldsJ args vars rs =>
          match alookup rs.endpoints HttpMethod.GET with
          | none =>
              MT.throw (.generic ("GET endpoint not found for resource \x22" ++ fieldName ++ "\x22."))
          | some _ =>
              MT.bind (MT.ofExcept (resolveVariables args vars)) fun resolvedArgs =>
              MT.bind (executorExecute env fieldName resolvedArgs vars .GET rs)
                fun result =>
              let extracted := lodashGet result (rs.dataPath.getD "")
              match extracted with
              | .arr xs =>
                  MT.bind (MT.mapM (fun x => prev.shape x fieldsJ rs.toShape) xs)
                    fun ys => MT.pure (.arr ys)
              | _ =>
                  MT.bind
                    (preResolveFold env
                      (fun fname fieldValueJ nrs =>
                        prev.exeQF fname fieldValueJ [] vars nrs)
                      rs (match fieldsJ with | .obj kvs => kvs | _ => []) extracted)
                    fun extracted2 => prev.shape extracted2 fieldsJ rs.toShape }

/-- `shapeData(data, query, resourceSchema)` (restQl.ts lines 290–386) at
a given fuel level; the requested-fields argument is a JS value (callers
pass either a fields map or a whole selection node). -/
def shapeData (env : Env) (fuel : Nat) (dat : JValue) (qfieldsJ : JValue)
    (rshape : ResShape) : MT JValue :=
  (mkBFns env fuel).shape dat qfieldsJ rshape

/-- `executeQueryField(fieldName, fields, args, variables, resourceSchema)`
(restQl.ts lines 213–288). -/
def executeQueryField (env : Env) (fuel : Nat) (fieldName : String)
    (fieldsJ : JValue) (args : List (String × String)) (vars : VarMap)
    (rs : SchemaResource) : MT JValue :=
  (mkBFns env fuel).exeQF fieldName fieldsJ args vars rs

end RQB

namespace RQB

/-- The per-query loop of `executeQuery` (restQl.ts lines 97–136),
determinised as for draft A: the cache key is computed strictly, a live
cached entry is copied through `CacheManager.get`, otherwise the resolver
closure is enqueued (and here run inline), storing its result into the
cache when caching is on. -/
def executeQueryGo (env : Env) (now fuel : Nat) (vars : VarMap) (useCache : Bool) :
    List ParsedQuery → List (String × JValue) → M (List (String × JValue))
  | [], results => M.pure results
  | q :: qs, results =>
      match alookup env.schema.resources (strToLower q.queryName) with
      | none => M.throw (.generic ("Resource \x22" ++ q.queryName ++ "\x22 not found in schema."))
      | some rs =>
          M.bind (M.ofExcept (getCacheKey q.queryName q.args vars)) fun cacheKey =>
          M.bind (if useCache then M.cacheHas now cacheKey else M.pure false) fun hit =>
          if hit then
            M.bind (M.cacheGetJ now cacheKey) fun v =>
            executeQueryGo env now fuel vars useCache qs (setKey results q.queryName v)
          else
            M.bind
              (M.batchAdd q.queryName
                (M.bind (M.liftT (executeQueryField env fuel q.queryName
                    (fieldsToJ q.fields) q.args vars rs)) fun res =>
                 M.bind (if useCache then M.cacheSet env now cacheKey res else M.pure ())
                   fun _ => M.pure res))
              fun res =>
                executeQueryGo env now fuel vars useCache qs
                  (setKey results q.queryName res)

/-- The per-mutation loop of `executeMutation` (restQl.ts lines 138–186). -/
def executeMutationGo (env : Env) (fuel : Nat) (vars : VarMap) :
    List ParsedQuery → List JValue → M (List JValue)
  | [], acc => M.pure acc
  | m :: ms, acc =>
      M.bind
        (M.batchAdd m.queryName (M.liftT (
          MT.bind (MT.ofExcept (parseMutationType m.queryName)) fun pr =>
          match alookup env.schema.resources (strToLower pr.2) with
          | none => MT.throw (.generic ("Resource \x22" ++ pr.2 ++ "\x22 not found in schema."))
          | some rs =>
              MT.bind (MT.ofExcept (getHttpMethodForOperation pr.1)) fun method =>
              match alookup rs.endpoints method with
              | none =>
                  MT.throw (.generic (method.toStr ++ " endpoint not found for resource \x22" ++
                    pr.2 ++ "\x22."))
              | some _ =>
                  MT.bind
                    (executorExecute env m.queryName
                      (m.args.map (fun kv => (kv.1, .str kv.2))) vars method rs)
                    fun result =>
                  let extracted := lodashGet result (rs.dataPath.getD "")
                  MT.bind (shapeData env fuel extracted (fieldsToJ m.fields) rs.toShape)
                    fun shaped =>
                      MT.pure (cherryPickFields shaped (fieldsToJ m.fields)))))
        fun picked => executeMutationGo env fuel vars ms (acc ++ [picked])

/-- `execute(operationString, variables, options)` (restQl.ts lines
78–95), from the parsed operation: no variable filtering or validation in
this draft — straight dispatch on the operation type. -/
def execute (env : Env) (now fuel : Nat) (op : ParsedOperation) (vars : VarMap)
    (useCache : Bool) : M JValue :=
  if op.operationType = "query" then
    M.bind (executeQueryGo env now fuel vars useCache op.queries []) fun r =>
    M.pure (.obj r)
  else if op.operationType = "mutation" then
    M.bind (executeMutationGo env fuel vars op.queries []) fun results =>
    M.pure (.arr results)
  else
    M.throw (.validation ("Unsupported operation type: " ++ op.operationType))

end RQB

/-! ## Association-list lemmas -/

theorem alookup_setKey_self {κ α : Type} [DecidableEq κ] (l : List (κ × α))
    (k : κ) (v : α) : alookup (setKey l k v) k = some v := by
  induction l with
  | nil => simp [setKey, alookup]
  | cons hd tl ih =>
      obtain ⟨k', v'⟩ := hd
      by_cases h : k' = k <;> simp [setKey, alookup, h, ih]

theorem alookup_setKey_ne {κ α : Type} [DecidableEq κ] (l : List (κ × α))
    (k k2 : κ) (v : α) (h : k ≠ k2) :
    alookup (setKey l k v) k2 = alookup l k2 := by
  induction l with
  | nil => simp [setKey, alookup, h]
  | cons hd tl ih =>
      obtain ⟨k', v'⟩ := hd
      by_cases h' : k' = k
      · subst h'; simp [setKey, alookup, h]
      · simp [setKey, alookup, h', ih]

theorem alookup_delKey_self {κ α : Type} [DecidableEq κ] (l : List (κ × α))
    (k : κ) : alookup (delKey l k) k = none := by
  induction l with
  | nil => simp [delKey, alookup]
  | cons hd tl ih =>
      obtain ⟨k', v'⟩ := hd
      by_cases h : k' = k <;> simp [delKey, alookup, h, ih]

theorem alookup_delKey_ne {κ α : Type} [DecidableEq κ] (l : List (κ × α))
    (k k2 : κ) (h : k ≠ k2) : alookup (delKey l k) k2 = alookup l k2 := by
  induction l with
  | nil => simp [delKey, alookup]
  | cons hd tl ih =>
      obtain ⟨k', v'⟩ := hd
      by_cases h' : k' = k
      · subst h'
        simp [delKey, alookup, ih, h]
      · simp [delKey, alookup, h', ih]

theorem setKey_fresh {κ α : Type} [DecidableEq κ] (l : List (κ × α)) (k : κ)
    (v : α) (h : alookup l k = none) : setKey l k v = l ++ [(k, v)] := by
  induction l with
  | nil => simp [setKey]
  | cons hd tl ih =>
      obtain ⟨k', v'⟩ := hd
      by_cases h' : k' = k
      · simp [alookup, h'] at h
      · simp [alookup, h'] at h
        simp [setKey, h', ih h]

/-! ## Claim theorems -/

/-- Any declared-required variable missing from the provided map makes
`validateVariables` fail with a `ValidationError` (possibly reporting a
different missing variable first, but always of validation kind). -/
theorem RQA.validateVariables_missing_required
    (decls : List (String × VariableDefinition)) (provided : VarMap)
    (name : String) (vd : VariableDefinition)
    (hmem : (name, vd) ∈ decls) (hreq : vd.isRequired = true)
    (hmiss : alookup provided name = none) :
    ∃ msg, RQA.validateVariables decls provided = .error (.validation msg) := by
  induction decls with
  | nil => cases hmem
  | cons hd tl ih =>
      obtain ⟨n0, vd0⟩ := hd
      by_cases hcase : vd0.isRequired ∧ (alookup provided n0).isNone
      · refine ⟨"Required variable " ++ n0 ++ " is not provided", ?_⟩
        simp only [RQA.validateVariables]
        rw [if_pos hcase]
      · rcases List.mem_cons.mp hmem with heq | hmem'
        · exfalso
          have h1 : n0 = name := congrArg Prod.fst heq.symm
          have h2 : vd0 = vd := congrArg Prod.snd heq.symm
          exact hcase ⟨h2 ▸ hreq, by rw [h1, hmiss]; rfl⟩
        · obtain ⟨msg, hmsg⟩ := ih hmem'
          refine ⟨msg, ?_⟩
          simp only [RQA.validateVariables]
          rw [if_neg hcase]
          exact hmsg

/-- C1: for every operation whose declaration list contains a variable
marked required, and every supplied variable map whose undefined-filtered
form does not contain that variable's name, `execute` (draft A) rejects
with a `ValidationError`-kind fault and leaves the engine state — in
particular the transport-call counter — untouched: no transport call is
made. -/
theorem C1_missing_required_variable_rejects
    (env : Env) (now fuel : Nat) (op : ParsedOperation) (vars : VarMap)
    (useCache : Bool) (st : St) (name : String) (vd : VariableDefinition)
    (hmem : (name, vd) ∈ op.varDecls) (hreq : vd.isRequired = true)
    (hmiss : alookup (RQA.filterUndef vars) name = none) :
    ∃ msg, RQA.execute env now fuel op vars useCache st =
      (.error (.validation msg), st) := by
  obtain ⟨msg, hmsg⟩ :=
    RQA.validateVariables_missing_required op.varDecls (RQA.filterUndef vars)
      name vd hmem hreq hmiss
  exact ⟨msg, by simp [RQA.execute, M.bind, M.ofExcept, M.throw, hmsg]⟩

/-- A minimal engine environment used by concrete witnesses. -/
def wEnv : Env :=
  { schema := ⟨[], []⟩, transformers := [],
    transport := fun _ _ _ => .ok .nul, ttl := 0 }

/-- The operation `query GetUser($id: String!) { user(id: $id) { id } }`. -/
def wOpReq : ParsedOperation :=
  { operationType := "query", operationName := "GetUser",
    varDecls := [("id", ⟨"String!", true⟩)],
    queries := [{ queryName := "user", args := [("id", "$id")],
                  fields := [("id", .leaf [])] }] }

/-- Witness for C1: the declared `$id: String!` with caller map
`{id: undefined}` (filtered to `{}`) rejects with a validation fault and
zero transport calls. -/
theorem C1_missing_required_variable_rejects_witness :
    ∃ msg, RQA.execute wEnv 0 10 wOpReq [("id", .undef)] true ⟨[], 0, 0⟩ =
      (.error (.validation msg), ⟨[], 0, 0⟩) :=
  C1_missing_required_variable_rejects wEnv 0 10 wOpReq [("id", .undef)] true
    ⟨[], 0, 0⟩ "id" ⟨"String!", true⟩ (List.mem_singleton.mpr rfl) rfl rfl

/-- C2: scalar coercion and nullability.  (1) For every field of scalar
type `Boolean`/`String`/`Int`, coercing `null`/`undefined` yields `null`
without raising on a nullable field and raises a `ValidationError`-kind
fault on a non-nullable field.  (2) During shaping, a coercion fault of
validation kind on a nullable field is swallowed, setting the field to
`null`, while on a non-nullable field it propagates out of the field
loop.  (3) For `Int` fields, every non-null raw value whose numeric
conversion is `NaN` or non-integral raises a `ValidationError`-kind
fault. -/
theorem C2_scalar_coercion_nullability :
    (∀ fs : SchemaField,
      (stripTypeMarks fs.type = "Boolean" ∨ stripTypeMarks fs.type = "String" ∨
        stripTypeMarks fs.type = "Int") →
      (fs.isNullable = true →
        RQA.coerceValue .nul fs = .ok .nul ∧ RQA.coerceValue .undef fs = .ok .nul) ∧
      (fs.isNullable = false →
        (∃ m, RQA.coerceValue .nul fs = .error (.validation m)) ∧
        (∃ m, RQA.coerceValue .undef fs = .error (.validation m)))) ∧
    (∀ (env : Env) (fuel : Nat) (dat : JValue) (fname : String)
      (fsel : FieldSel) (fs : SchemaField) (rest : List (String × FieldSel))
      (rshape : ResShape) (vars : VarMap) (rawResps : JValue)
      (acc : List (String × JValue)) (n : Nat) (e : RError),
      alookup rshape.fields fname = some fs →
      RQA.coerceValue (lodashGet dat (fs.fromPath.getD fname)) fs = .error e →
      e.isValidation = true →
      RQA.shapeFieldsFold
          (fun d f sel fsc =>
            (RQA.mkAFns env (fuel + 1)).fieldVal d f sel fsc vars rawResps)
          dat rshape ((fname, fsel) :: rest) acc n =
        (if fs.isNullable then
           RQA.shapeFieldsFold
             (fun d f sel fsc =>
               (RQA.mkAFns env (fuel + 1)).fieldVal d f sel fsc vars rawResps)
             dat rshape rest (setKey acc fname JValue.nul) n
         else (.error e, n))) ∧
    (∀ (v : JValue) (fs : SchemaField), v ≠ .nul → v ≠ .undef →
      stripTypeMarks fs.type = "Int" →
      (∀ q, jsToNumber v = some q → q.den ≠ 1) →
      ∃ m, RQA.coerceValue v fs = .error (.validation m)) := by
  refine ⟨?_, ?_, ?_⟩
  · intro fs _
    constructor
    · intro hn
      constructor <;> simp [RQA.coerceValue, hn]
    · intro hn
      constructor <;>
        exact ⟨"Non-nullable field received null or undefined value",
          by simp [RQA.coerceValue, hn]⟩
  · intro env fuel dat fname fsel fs rest rshape vars rawResps acc n e hlook hco hval
    have hbody :
        (RQA.mkAFns env (fuel + 1)).fieldVal dat fname fsel fs vars rawResps n =
          (.error e, n) := by
      rw [RQA.mkAFns]
      simp only [MT.bind, MT.ofExcept, MT.throw, hco]
    rw [RQA.shapeFieldsFold]
    simp only [hlook]
    simp only [MT.bind, MT.tryCatch, hbody, hval]
    by_cases hnl : fs.isNullable
    · simp [hnl, MT.pure]
    · simp only [Bool.not_eq_true] at hnl
      simp [hnl, MT.throw]
  · intro v fs hv1 hv2 htype hq
    cases v with
    | nul => exact absurd rfl hv1
    | undef => exact absurd rfl hv2
    | bool b =>
        exfalso
        refine hq (if b then 1 else 0) rfl ?_
        cases b <;> rfl
    | num q =>
        refine ⟨"Invalid integer value", ?_⟩
        have hden : q.den ≠ 1 := hq q rfl
        simp [RQA.coerceValue, htype, jsToNumber, hden]
    | str s =>
        refine ⟨"Invalid integer value", ?_⟩
        cases hn : strToNumCore (jsTrim s) with
        | none => simp [RQA.coerceValue, htype, jsToNumber, hn]
        | some q =>
            have hden : q.den ≠ 1 := hq q (by simp [jsToNumber, hn])
            simp [RQA.coerceValue, htype, jsToNumber, hn, hden]
    | arr xs =>
        refine ⟨"Invalid integer value", ?_⟩
        cases hn : strToNumCore (jsTrim (jsToStringList xs)) with
        | none => simp [RQA.coerceValue, htype, jsToNumber, hn]
        | some q =>
            have hden : q.den ≠ 1 := hq q (by simp [jsToNumber, hn])
            simp [RQA.coerceValue, htype, jsToNumber, hn, hden]
    | obj kvs =>
        refine ⟨"Invalid integer value", ?_⟩
        simp [RQA.coerceValue, htype, jsToNumber]

/-- Witness for C2, instantiating all three conjuncts at concrete
fields/values: a nullable `String` accepts `null`; a non-nullable `Int`
rejects `null`; shaping a nullable `Int` field with raw value `"abc"`
swallows the coercion fault into a `null` field; and the non-integral
number `3/2` is rejected by `Int` coercion. -/
theorem C2_scalar_coercion_nullability_witness :
    (RQA.coerceValue .nul { type := "String" } = .ok .nul ∧
      RQA.coerceValue .undef { type := "String" } = .ok .nul) ∧
    (∃ m, RQA.coerceValue .nul { type := "Int", isNullable := false } =
      .error (.validation m)) ∧
    (RQA.shapeFieldsFold
        (fun d f sel fsc =>
          (RQA.mkAFns wEnv 1).fieldVal d f sel fsc [] (.obj []))
        (.obj [("x", .str "abc")]) ⟨[("x", { type := "Int" })], none⟩
        [("x", .leaf [])] [] 0 =
      (if ({ type := "Int" } : SchemaField).isNullable then
         RQA.shapeFieldsFold
           (fun d f sel fsc =>
             (RQA.mkAFns wEnv 1).fieldVal d f sel fsc [] (.obj []))
           (.obj [("x", .str "abc")]) ⟨[("x", { type := "Int" })], none⟩
           [] (setKey [] "x" JValue.nul) 0
       else (.error (.validation "Invalid integer value"), 0))) ∧
    (∃ m, RQA.coerceValue (.num (mkRat 3 2)) { type := "Int" } =
      .error (.validation m)) := by
  have h := C2_scalar_coercion_nullability
  refine ⟨(h.1 { type := "String" } (Or.inr (Or.inl rfl)) ).1 rfl,
          ((h.1 { type := "Int", isNullable := false } (Or.inr (Or.inr rfl))).2 rfl).1,
          ?_, ?_⟩
  · exact h.2.1 wEnv 0 (.obj [("x", .str "abc")]) "x" (.leaf [])
      { type := "Int" } [] ⟨[("x", { type := "Int" })], none⟩ [] (.obj []) [] 0
      (.validation "Invalid integer value") rfl rfl rfl
  · refine h.2.2 (.num (mkRat 3 2)) { type := "Int" }
      (fun hc => JValue.noConfusion hc) (fun hc => JValue.noConfusion hc) rfl ?_
    intro q hq
    have : (mkRat 3 2) = q := by
      simpa [jsToNumber] using hq
    rw [← this]
    decide

/-! ## Further association-list lemmas -/

theorem alookup_none_of_not_mem_keys {κ α : Type} [DecidableEq κ]
    (l : List (κ × α)) (k : κ) (h : k ∉ l.map Prod.fst) : alookup l k = none := by
  induction l with
  | nil => rfl
  | cons hd tl ih =>
      obtain ⟨k', v'⟩ := hd
      simp only [List.map_cons, List.mem_cons] at h
      push_neg at h
      have hk : k' ≠ k := fun hc => h.1 hc.symm
      simp [alookup, hk, ih h.2]

theorem mem_keys_of_alookup {κ α : Type} [DecidableEq κ]
    (l : List (κ × α)) (k : κ) (v : α) (h : alookup l k = some v) :
    k ∈ l.map Prod.fst := by
  induction l with
  | nil => cases h
  | cons hd tl ih =>
      obtain ⟨k', v'⟩ := hd
      by_cases hc : k' = k
      · simp [hc]
      · simp [alookup, hc] at h
        simp [ih h]

theorem alookup_mem_of_nodup {κ α : Type} [DecidableEq κ]
    (l : List (κ × α)) (k : κ) (v : α) (hn : (l.map Prod.fst).Nodup)
    (hm : (k, v) ∈ l) : alookup l k = some v := by
  induction l with
  | nil => cases hm
  | cons hd tl ih =>
      obtain ⟨k', v'⟩ := hd
      simp only [List.map_cons, List.nodup_cons] at hn
      rcases List.mem_cons.mp hm with heq | hmem
      · obtain ⟨h1, h2⟩ := Prod.mk.injEq _ _ _ _ ▸ heq.symm
        subst h1; subst h2
        simp [alookup]
      · have hk : k' ≠ k := by
          intro hc
          exact hn.1 (hc ▸ List.mem_map_of_mem Prod.fst hmem)
        simp [alookup, hk, ih hn.2 hmem]

/-! ## C4: SDL resource/value-type storage -/

def hasEp (b : TypeBlock) : Bool := decide (b.endpoints.length > 0)

def epKey (b : TypeBlock) : String := strToLower b.name

def resOf (b : TypeBlock) : SchemaResource :=
  ⟨b.fields, b.endpoints, b.dataPath, b.transform⟩

def vtOf (b : TypeBlock) : ValueType := ⟨b.fields, b.transform⟩

/-- Characterisation of the SDL storage fold: under fresh keys, each
stored block appends its entry to the respective map. -/
theorem parseSDL_fold_char (bs : List TypeBlock) (s0 : Schema)
    (h1 : ((s0.resources.map Prod.fst) ++ (bs.filter hasEp).map epKey).Nodup)
    (h2 : ((s0.types.map Prod.fst) ++
      (bs.filter (fun b => !hasEp b)).map TypeBlock.name).Nodup) :
    (bs.foldl storeTypeBlock s0).resources =
      s0.resources ++ (bs.filter hasEp).map (fun b => (epKey b, resOf b)) ∧
    (bs.foldl storeTypeBlock s0).types =
      s0.types ++ (bs.filter (fun b => !hasEp b)).map (fun b => (b.name, vtOf b)) := by
  induction bs generalizing s0 with
  | nil => simp
  | cons b bs ih =>
      by_cases hb : hasEp b = true
      · have hprop : b.endpoints.length > 0 := of_decide_eq_true hb
        have hfilter1 : (b :: bs).filter hasEp = b :: bs.filter hasEp :=
          List.filter_cons_of_pos hb
        have hfilter2 : (b :: bs).filter (fun b => !hasEp b) =
            bs.filter (fun b => !hasEp b) :=
          List.filter_cons_of_neg (by simp [hb])
        rw [hfilter1] at h1
        rw [hfilter2] at h2
        simp only [List.map_cons] at h1
        have hfresh : epKey b ∉ s0.resources.map Prod.fst := by
          intro hc
          have := (List.nodup_append.mp h1).2.2
          exact this hc (List.mem_cons_self _ _)
        have hstep : storeTypeBlock s0 b =
            ⟨s0.resources ++ [(epKey b, resOf b)], s0.types⟩ := by
          simp only [storeTypeBlock, if_pos hprop]
          congr 1
          exact setKey_fresh _ _ _ (alookup_none_of_not_mem_keys _ _ hfresh)
        have h1' : (((s0.resources ++ [(epKey b, resOf b)]).map Prod.fst) ++
            (bs.filter hasEp).map epKey).Nodup := by
          simp only [List.map_append, List.map_cons, List.map_nil]
          rw [List.append_assoc]
          simpa using h1
        have h2' : ((s0.types.map Prod.fst) ++
            (bs.filter (fun b => !hasEp b)).map TypeBlock.name).Nodup := h2
        have := ih ⟨s0.resources ++ [(epKey b, resOf b)], s0.types⟩ h1' h2'
        constructor
        · rw [List.foldl_cons, hstep]
          rw [this.1]
          simp [hfilter1]
        · rw [List.foldl_cons, hstep]
          rw [this.2]
          simp [hfilter2]
      · have hb' : hasEp b = false := by
          cases hhb : hasEp b
          · rfl
          · exact absurd hhb hb
        have hprop : ¬ b.endpoints.length > 0 := by
          intro hc
          exact hb (decide_eq_true hc)
        have hfilter1 : (b :: bs).filter hasEp = bs.filter hasEp :=
          List.filter_cons_of_neg (by simp [hb'])
        have hfilter2 : (b :: bs).filter (fun b => !hasEp b) =
            b :: bs.filter (fun b => !hasEp b) :=
          List.filter_cons_of_pos (by simp [hb'])
        rw [hfilter1] at h1
        rw [hfilter2] at h2
        simp only [List.map_cons] at h2
        have hfresh : b.name ∉ s0.types.map Prod.fst := by
          intro hc
          have := (List.nodup_append.mp h2).2.2
          exact this hc (List.mem_cons_self _ _)
        have hstep : storeTypeBlock s0 b =
            ⟨s0.resources, s0.types ++ [(b.name, vtOf b)]⟩ := by
          simp only [storeTypeBlock, if_neg hprop]
          congr 1
          exact setKey_fresh _ _ _ (alookup_none_of_not_mem_keys _ _ hfresh)
        have h2' : (((s0.types ++ [(b.name, vtOf b)]).map Prod.fst) ++
            (bs.filter (fun b => !hasEp b)).map TypeBlock.name).Nodup := by
          simp only [List.map_append, List.map_cons, List.map_nil]
          rw [List.append_assoc]
          simpa using h2
        have := ih ⟨s0.resources, s0.types ++ [(b.name, vtOf b)]⟩ h1 h2'
        constructor
        · rw [List.foldl_cons, hstep]
          rw [this.1]
          simp [hfilter1]
        · rw [List.foldl_cons, hstep]
          rw [this.2]
          simp [hfilter2]

/-- C4 (counterexample): two syntactically valid `type` blocks named
`User` (with an `@endpoint`) and `user` (without) make the name `user`
present both as a top-level resource key and as a `_types` key, refuting
the claimed disjointness invariant for arbitrary valid SDL. -/
theorem C4_sdl_disjointness_counterexample :
    (alookup (parseSDLBlocks
        [⟨"User", [(.GET, ⟨.GET, "/u"⟩)], [], none, some "d"⟩,
         ⟨"user", [], [], none, none⟩]).resources "user").isSome = true ∧
    (alookup (parseSDLBlocks
        [⟨"User", [(.GET, ⟨.GET, "/u"⟩)], [], none, some "d"⟩,
         ⟨"user", [], [], none, none⟩]).types "user").isSome = true :=
  ⟨rfl, rfl⟩

/-- C4 (amended): provided the type-block names do not collide — the
lower-cased names of endpoint-bearing blocks pairwise distinct, the
original names of endpoint-less blocks pairwise distinct, and no
endpoint-less block named like the lower-cased name of an
endpoint-bearing block — `parseSDL` stores each endpoint-bearing block as
exactly one `SchemaResource` under the lower-cased type name, each
endpoint-less block as exactly one `ValueType` under the original-case
name (with the endpoints entry removed: `vtOf` carries no endpoints), the
key sets are exactly the block names, and no name is present both as a
top-level resource and in `_types`. -/
theorem C4_sdl_type_storage_amended (bs : List TypeBlock)
    (h1 : ((bs.filter hasEp).map epKey).Nodup)
    (h2 : ((bs.filter (fun b => !hasEp b)).map TypeBlock.name).Nodup)
    (h3 : ∀ b ∈ bs.filter (fun b => !hasEp b),
      b.name ∉ (bs.filter hasEp).map epKey) :
    (∀ b ∈ bs, hasEp b = true →
      alookup (parseSDLBlocks bs).resources (epKey b) = some (resOf b)) ∧
    (∀ b ∈ bs, hasEp b = false →
      alookup (parseSDLBlocks bs).types b.name = some (vtOf b)) ∧
    ((parseSDLBlocks bs).resources.map Prod.fst = (bs.filter hasEp).map epKey) ∧
    ((parseSDLBlocks bs).types.map Prod.fst =
      (bs.filter (fun b => !hasEp b)).map TypeBlock.name) ∧
    (∀ n : String, (alookup (parseSDLBlocks bs).resources n).isSome →
      (alookup (parseSDLBlocks bs).types n).isSome → False) := by
  have hchar := parseSDL_fold_char bs ⟨[], []⟩ (by simpa using h1) (by simpa using h2)
  have hres : (parseSDLBlocks bs).resources =
      (bs.filter hasEp).map (fun b => (epKey b, resOf b)) := by
    simpa [parseSDLBlocks] using hchar.1
  have htys : (parseSDLBlocks bs).types =
      (bs.filter (fun b => !hasEp b)).map (fun b => (b.name, vtOf b)) := by
    simpa [parseSDLBlocks] using hchar.2
  have hreskeys : (parseSDLBlocks bs).resources.map Prod.fst =
      (bs.filter hasEp).map epKey := by
    rw [hres, List.map_map]; rfl
  have htyskeys : (parseSDLBlocks bs).types.map Prod.fst =
      (bs.filter (fun b => !hasEp b)).map TypeBlock.name := by
    rw [htys, List.map_map]; rfl
  refine ⟨?_, ?_, hreskeys, htyskeys, ?_⟩
  · intro b hmem hep
    apply alookup_mem_of_nodup
    · rw [hreskeys]; exact h1
    · rw [hres]
      exact List.mem_map_of_mem _ (List.mem_filter.mpr ⟨hmem, hep⟩)
  · intro b hmem hep
    apply alookup_mem_of_nodup
    · rw [htyskeys]; exact h2
    · rw [htys]
      exact List.mem_map_of_mem _ (List.mem_filter.mpr ⟨hmem, by simp [hep]⟩)
  · intro n hr ht
    obtain ⟨vr, hvr⟩ := Option.isSome_iff_exists.mp hr
    obtain ⟨vt, hvt⟩ := Option.isSome_iff_exists.mp ht
    have hnr : n ∈ (bs.filter hasEp).map epKey := by
      rw [← hreskeys]; exact mem_keys_of_alookup _ _ _ hvr
    have hnt : n ∈ (bs.filter (fun b => !hasEp b)).map TypeBlock.name := by
      rw [← htyskeys]; exact mem_keys_of_alookup _ _ _ hvt
    obtain ⟨b, hbmem, hbname⟩ := List.mem_map.mp hnt
    exact h3 b hbmem (hbname ▸ hnr)

/-- The endpoint-bearing and endpoint-less blocks used by C4's witness. -/
def c4UserBlock : TypeBlock := ⟨"User", [(.GET, ⟨.GET, "/u"⟩)], [], none, some "d"⟩

def c4AddrBlock : TypeBlock := ⟨"Address", [], [], none, none⟩

/-- Witness for C4's amended storage theorem: `User` (endpoint-bearing)
and `Address` (endpoint-less) land in their respective maps under the
right keys. -/
theorem C4_sdl_type_storage_amended_witness :
    alookup (parseSDLBlocks [c4UserBlock, c4AddrBlock]).resources "user" =
      some (resOf c4UserBlock) ∧
    alookup (parseSDLBlocks [c4UserBlock, c4AddrBlock]).types "Address" =
      some (vtOf c4AddrBlock) := by
  have h := C4_sdl_type_storage_amended [c4UserBlock, c4AddrBlock]
    (by decide) (by decide) (by decide)
  exact ⟨h.1 c4UserBlock (by simp) rfl, h.2.1 c4AddrBlock (by simp) rfl⟩

/-! ## C5: mutation cherry-picking -/

mutual
/-- The claim's strict reading of "every key present in the final output
tree is present in the requested-field tree at the corresponding nesting
level, recursively, including through arrays": under a leaf selection the
requested tree has no deeper level, so any object key below a leaf is
unrequested. -/
def strictRespects : JValue → List (String × FieldSel) → Bool
  | .arr xs, fields => strictRespectsList xs fields
  | .obj kvs, fields => strictRespectsObj kvs fields
  | _, _ => true

def strictRespectsList : List JValue → List (String × FieldSel) → Bool
  | [], _ => true
  | x :: xs, fields => strictRespects x fields && strictRespectsList xs fields

def strictRespectsObj : List (String × JValue) → List (String × FieldSel) → Bool
  | [], _ => true
  | (k, w) :: rest, fields =>
      (match alookup fields k with
       | none => false
       | some (.leaf _) => noKeys w
       | some (.node _ nfs) => strictRespects w nfs) && strictRespectsObj rest fields

/-- `noKeys v`: the value contributes no object keys at any depth. -/
def noKeys : JValue → Bool
  | .obj kvs => kvs.isEmpty
  | .arr xs => noKeysList xs
  | _ => true

def noKeysList : List JValue → Bool
  | [] => true
  | x :: xs => noKeys x && noKeysList xs
end

mutual
/-- The amended reading: every key of the output must be a requested key
at its level, recursing through nested selections and arrays, but a
field requested as a leaf is copied verbatim (its contents are exempt). -/
def pickRespects : JValue → List (String × FieldSel) → Bool
  | .arr xs, fields => pickRespectsList xs fields
  | .obj kvs, fields => pickRespectsObj kvs fields
  | _, _ => true

def pickRespectsList : List JValue → List (String × FieldSel) → Bool
  | [], _ => true
  | x :: xs, fields => pickRespects x fields && pickRespectsList xs fields

def pickRespectsObj : List (String × JValue) → List (String × FieldSel) → Bool
  | [], _ => true
  | (k, w) :: rest, fields =>
      (match alookup fields k with
       | none => false
       | some (.leaf _) => true
       | some (.node _ nfs) => pickRespects w nfs) && pickRespectsObj rest fields
end

mutual
/-- One selection subtree has unique field names at every level. -/
def selTreeNodup : FieldSel → Bool
  | .leaf _ => true
  | .node _ nfs => selNodup nfs

/-- Selection trees as the operation parser produces them have unique
field names at every level (JS object keys). -/
def selNodup : List (String × FieldSel) → Bool
  | [] => true
  | (k, sel) :: rest =>
      decide (k ∉ rest.map Prod.fst) && selTreeNodup sel && selNodup rest
end

/-- One output entry is accounted for by the selection: its key is
requested, and under a nested selection the value respects it. -/
def pickEntryOk (fields : List (String × FieldSel)) (p : String × JValue) : Prop :=
  match alookup fields p.1 with
  | none => False
  | some (.leaf _) => True
  | some (.node _ nfs) => pickRespects p.2 nfs = true

theorem setKey_mem {κ α : Type} [DecidableEq κ] (l : List (κ × α)) (k : κ)
    (v : α) (p : κ × α) (h : p ∈ setKey l k v) : p = (k, v) ∨ p ∈ l := by
  induction l with
  | nil => simpa [setKey] using h
  | cons hd tl ih =>
      obtain ⟨k', v'⟩ := hd
      by_cases hc : k' = k
      · simp only [setKey, if_pos hc] at h
        rcases List.mem_cons.mp h with heq | hm
        · exact Or.inl heq
        · exact Or.inr (List.mem_cons.mpr (Or.inr hm))
      · simp only [setKey, if_neg hc] at h
        rcases List.mem_cons.mp h with heq | hm
        · exact Or.inr (List.mem_cons.mpr (Or.inl heq))
        · rcases ih hm with h1 | h2
          · exact Or.inl h1
          · exact Or.inr (List.mem_cons.mpr (Or.inr h2))

theorem pickRespectsObj_of_forall (fields : List (String × FieldSel))
    (kvs : List (String × JValue)) (h : ∀ p ∈ kvs, pickEntryOk fields p) :
    pickRespectsObj kvs fields = true := by
  induction kvs with
  | nil => rfl
  | cons hd tl ih =>
      obtain ⟨k, w⟩ := hd
      have hhd := h (k, w) (List.mem_cons_self _ _)
      have htl := ih (fun p hp => h p (List.mem_cons.mpr (Or.inr hp)))
      rw [pickRespectsObj]
      rw [htl, Bool.and_true]
      unfold pickEntryOk at hhd
      rcases hl : alookup fields k with _ | sel
      · rw [hl] at hhd; exact absurd hhd id
      · rw [hl] at hhd
        cases sel with
        | leaf a => simp [hl]
        | node a nfs => simp [hl]; exact hhd

theorem sizeOf_node_fields_lt (fields : List (String × FieldSel)) (k : String)
    (a : List (String × String)) (nfs : List (String × FieldSel))
    (h : (k, FieldSel.node a nfs) ∈ fields) : sizeOf nfs < sizeOf fields := by
  induction fields with
  | nil => cases h
  | cons hd tl ih =>
      rcases List.mem_cons.mp h with heq | hm
      · subst heq
        simp only [List.cons.sizeOf_spec, Prod.mk.sizeOf_spec, FieldSel.node.sizeOf_spec]
        omega
      · have := ih hm
        simp only [List.cons.sizeOf_spec]
        omega

theorem selNodup_keys (fields : List (String × FieldSel))
    (h : selNodup fields = true) : (fields.map Prod.fst).Nodup := by
  induction fields with
  | nil => simp
  | cons hd tl ih =>
      obtain ⟨k, sel⟩ := hd
      rw [selNodup, Bool.and_assoc] at h
      have h1 := of_decide_eq_true (Bool.and_elim_left h)
      have h2 := Bool.and_elim_right (Bool.and_elim_right h)
      simp only [List.map_cons, List.nodup_cons]
      exact ⟨h1, ih h2⟩

theorem selNodup_child (fields : List (String × FieldSel))
    (h : selNodup fields = true) (k : String) (a : List (String × String))
    (nfs : List (String × FieldSel)) (hm : (k, FieldSel.node a nfs) ∈ fields) :
    selNodup nfs = true := by
  induction fields with
  | nil => cases hm
  | cons hd tl ih =>
      obtain ⟨k', sel'⟩ := hd
      rw [selNodup, Bool.and_assoc] at h
      have h2 := Bool.and_elim_right h
      rcases List.mem_cons.mp hm with heq | hm'
      · have hsel : sel' = FieldSel.node a nfs := congrArg Prod.snd heq.symm
        subst hsel
        have := Bool.and_elim_left h2
        rwa [selTreeNodup] at this
      · exact ih (Bool.and_elim_right h2) hm'

theorem pickRespectsList_of_forall (fields : List (String × FieldSel))
    (xs : List JValue) (h : ∀ x ∈ xs, pickRespects x fields = true) :
    pickRespectsList xs fields = true := by
  induction xs with
  | nil => rfl
  | cons x xs ih =>
      rw [pickRespectsList, h x (List.mem_cons_self _ _),
        ih (fun y hy => h y (List.mem_cons.mpr (Or.inr hy)))]
      rfl

theorem pickRespects_scalar (w : JValue) (fields : List (String × FieldSel))
    (h1 : ∀ xs, w ≠ .arr xs) (h2 : ∀ kvs, w ≠ .obj kvs) :
    pickRespects w fields = true := by
  cases w with
  | arr xs => exact absurd rfl (h1 xs)
  | obj kvs => exact absurd rfl (h2 kvs)
  | nul => rfl
  | undef => rfl
  | bool b => rfl
  | num q => rfl
  | str s => rfl

theorem cherryPickLoop_P (fields : List (String × FieldSel))
    (hnodup : (fields.map Prod.fst).Nodup)
    (IH : ∀ (k : String) (a : List (String × String))
      (nfs : List (String × FieldSel)), (k, FieldSel.node a nfs) ∈ fields →
      ∀ x, pickRespects (RQA.cherryPickFields x nfs) nfs = true) :
    ∀ (fs2 : List (String × FieldSel)) (dat : JValue)
      (acc : List (String × JValue)),
      (∀ p ∈ fs2, p ∈ fields) →
      (∀ p ∈ acc, pickEntryOk fields p) →
      ∀ p ∈ RQA.cherryPickLoop dat fs2 acc, pickEntryOk fields p := by
  intro fs2
  induction fs2 with
  | nil =>
      intro dat acc hsub hacc p hp
      rw [RQA.cherryPickLoop] at hp
      exact hacc p hp
  | cons hd tl ih =>
      intro dat acc hsub hacc p hp
      obtain ⟨fname, sel⟩ := hd
      have hmemf : (fname, sel) ∈ fields := hsub _ (List.mem_cons_self _ _)
      have hlook : alookup fields fname = some sel :=
        alookup_mem_of_nodup _ _ _ hnodup hmemf
      have hsub' : ∀ p ∈ tl, p ∈ fields :=
        fun q hq => hsub q (List.mem_cons.mpr (Or.inr hq))
      cases sel with
      | leaf a =>
          rw [RQA.cherryPickLoop] at hp
          refine ih dat _ hsub' ?_ p hp
          intro q hq
          rcases setKey_mem _ _ _ _ hq with heq | hm
          · subst heq
            unfold pickEntryOk
            rw [hlook]
            trivial
          · exact hacc q hm
      | node a nfs =>
          rw [RQA.cherryPickLoop] at hp
          refine ih dat _ hsub' ?_ p hp
          intro q hq
          have hresp : ∀ x, pickRespects (RQA.cherryPickFields x nfs) nfs = true :=
            IH fname a nfs hmemf
          cases hdv : getStep dat fname with
          | arr xs =>
              rw [hdv] at hq
              rcases setKey_mem _ _ _ _ hq with heq | hm
              · subst heq
                unfold pickEntryOk
                rw [hlook]
                show pickRespectsList _ nfs = true
                exact pickRespectsList_of_forall nfs _ (by
                  intro x hx
                  obtain ⟨y, _, hy⟩ := List.mem_map.mp hx
                  exact hy ▸ hresp y)
              · exact hacc q hm
          | obj kvs =>
              rw [hdv] at hq
              rcases setKey_mem _ _ _ _ hq with heq | hm
              · subst heq
                unfold pickEntryOk
                rw [hlook]
                exact hresp (.obj kvs)
              · exact hacc q hm
          | nul =>
              rw [hdv] at hq
              rcases setKey_mem _ _ _ _ hq with heq | hm
              · subst heq
                unfold pickEntryOk
                rw [hlook]
                rfl
              · exact hacc q hm
          | undef =>
              rw [hdv] at hq
              rcases setKey_mem _ _ _ _ hq with heq | hm
              · subst heq
                unfold pickEntryOk
                rw [hlook]
                rfl
              · exact hacc q hm
          | bool b =>
              rw [hdv] at hq
              rcases setKey_mem _ _ _ _ hq with heq | hm
              · subst heq
                unfold pickEntryOk
                rw [hlook]
                rfl
              · exact hacc q hm
          | num qq =>
              rw [hdv] at hq
              rcases setKey_mem _ _ _ _ hq with heq | hm
              · subst heq
                unfold pickEntryOk
                rw [hlook]
                rfl
              · exact hacc q hm
          | str s =>
              rw [hdv] at hq
              rcases setKey_mem _ _ _ _ hq with heq | hm
              · subst heq
                unfold pickEntryOk
                rw [hlook]
                rfl
              · exact hacc q hm

theorem pickRespects_cherryPick (n : Nat) :
    ∀ fields : List (String × FieldSel), sizeOf fields < n →
      selNodup fields = true →
      ∀ dat, pickRespects (RQA.cherryPickFields dat fields) fields = true := by
  induction n with
  | zero => intro fields h; omega
  | succ n ih =>
      intro fields hsz hnd dat
      have IH : ∀ (k : String) (a : List (String × String))
          (nfs : List (String × FieldSel)), (k, FieldSel.node a nfs) ∈ fields →
          ∀ x, pickRespects (RQA.cherryPickFields x nfs) nfs = true := by
        intro k a nfs hm x
        exact ih nfs (by have := sizeOf_node_fields_lt fields k a nfs hm; omega)
          (selNodup_child fields hnd k a nfs hm) x
      have hloop := cherryPickLoop_P fields (selNodup_keys _ hnd) IH fields dat []
        (fun p hp => hp) (fun p hp => absurd hp (List.not_mem_nil p))
      cases dat with
      | obj kvs =>
          rw [RQA.cherryPickFields]
          exact pickRespectsObj_of_forall fields _ hloop
      | arr xs =>
          rw [RQA.cherryPickFields]
          exact pickRespectsObj_of_forall fields _ hloop
      | nul =>
          rw [RQA.cherryPickFields]
          · rfl
          · exact fun _ h => JValue.noConfusion h
          · exact fun _ h => JValue.noConfusion h
      | undef =>
          rw [RQA.cherryPickFields]
          · rfl
          · exact fun _ h => JValue.noConfusion h
          · exact fun _ h => JValue.noConfusion h
      | bool b =>
          rw [RQA.cherryPickFields]
          · rfl
          · exact fun _ h => JValue.noConfusion h
          · exact fun _ h => JValue.noConfusion h
      | num q =>
          rw [RQA.cherryPickFields]
          · rfl
          · exact fun _ h => JValue.noConfusion h
          · exact fun _ h => JValue.noConfusion h
      | str s =>
          rw [RQA.cherryPickFields]
          · rfl
          · exact fun _ h => JValue.noConfusion h
          · exact fun _ h => JValue.noConfusion h

/-- Every successful mutation closure returns a cherry-picked value. -/
theorem RQA.mutationOp_ok (env : Env) (fuel : Nat) (vars : VarMap)
    (m : ParsedQuery) (n n' : Nat) (v : JValue)
    (h : RQA.mutationOp env fuel vars m n = (.ok v, n')) :
    ∃ shaped, v = RQA.cherryPickFields shaped m.fields := by
  unfold RQA.mutationOp at h
  rcases hp : parseMutationType m.queryName with e | pr
  · rw [hp] at h
    simp [MT.bind, MT.ofExcept, MT.throw] at h
  · rw [hp] at h
    simp only [MT.bind, MT.ofExcept, MT.pure] at h
    rcases hl : alookup env.schema.resources (strToLower pr.2) with _ | rs
    · rw [hl] at h
      simp [MT.throw] at h
    · rw [hl] at h
      rcases hm : getHttpMethodForOperation pr.1 with e | method
      · rw [hm] at h
        simp [MT.bind, MT.ofExcept, MT.throw] at h
      · rw [hm] at h
        simp only [MT.bind, MT.ofExcept, MT.pure] at h
        rcases hep : alookup rs.endpoints method with _ | ep
        · rw [hep] at h
          simp [MT.throw] at h
        · rw [hep] at h
          dsimp only at h
          simp only [MT.bind] at h
          rcases hex : executorExecute env m.queryName
              (m.args.map (fun kv => (kv.1, .str kv.2))) vars method rs n
            with ⟨r, n1⟩
          rw [hex] at h
          cases r with
          | error e => simp at h
          | ok result =>
              dsimp only at h
              rcases hsh : RQA.shapeData env fuel
                  (lodashGet result (rs.dataPath.getD "")) (some m.fields)
                  rs.toShape vars (.obj []) n1
                with ⟨rsh, n2⟩
              rw [hsh] at h
              cases rsh with
              | error e => simp at h
              | ok shaped =>
                  simp only [MT.pure, Prod.mk.injEq] at h
                  refine ⟨shaped, ?_⟩
                  rw [← (Except.ok.inj h.1)]

/-- Successful mutation execution produces exactly one cherry-picked
value per mutation, in order. -/
theorem RQA.executeMutationGo_results (env : Env) (fuel : Nat) (vars : VarMap) :
    ∀ (qs : List ParsedQuery) (acc : List JValue) (st : St)
      (res : List JValue) (st2 : St),
      RQA.executeMutationGo env fuel vars qs acc st = (.ok res, st2) →
      ∃ picks, res = acc ++ picks ∧
        List.Forall₂ (fun (v : JValue) (m : ParsedQuery) =>
          ∃ shaped, v = RQA.cherryPickFields shaped m.fields) picks qs := by
  intro qs
  induction qs with
  | nil =>
      intro acc st res st2 h
      rw [RQA.executeMutationGo] at h
      simp only [M.pure, Prod.mk.injEq] at h
      exact ⟨[], by simp [← Except.ok.inj h.1], List.Forall₂.nil⟩
  | cons m ms ih =>
      intro acc st res st2 h
      rw [RQA.executeMutationGo] at h
      simp only [M.bind, M.batchAdd, M.liftT] at h
      rcases hop : RQA.mutationOp env fuel vars m
          ({ st with batched := st.batched + 1 } : St).calls with ⟨r, n'⟩
      rw [hop] at h
      cases r with
      | error e => simp at h
      | ok picked =>
          dsimp only at h
          obtain ⟨picks', hres, hfa⟩ := ih (acc ++ [picked]) _ res st2 h
          obtain ⟨shaped, hsh⟩ :=
            RQA.mutationOp_ok env fuel vars m _ n' picked hop
          refine ⟨picked :: picks', ?_, List.Forall₂.cons ⟨shaped, hsh⟩ hfa⟩
          rw [hres]
          simp

/-- A schema/environment whose resource-level transform adds an
unrequested object under the requested leaf field `profile`. -/
def C5env : Env :=
  { schema :=
      { resources := [("user",
          { fields := [("profile", { type := "String" })],
            endpoints := [(.POST, ⟨.POST, "/users"⟩)],
            dataPath := some "data",
            transform := some "userT" })],
        types := [] },
    transformers :=
      [("userT", fun _ _ _ => .obj [("profile", .obj [("secret", .str "s")])])],
    transport := fun _ _ _ => .ok (.obj [("data", .obj [("profile", .str "x")])]),
    ttl := 1000 }

/-- `mutation M { createUser { profile } }`. -/
def C5op : ParsedOperation :=
  { operationType := "mutation", operationName := "M", varDecls := [],
    queries := [{ queryName := "createUser", args := [],
                  fields := [("profile", .leaf [])] }] }

/-- C5 (counterexample): the resource transform puts an object under the
leaf-requested field `profile`; cherry-picking copies it verbatim, so the
final output of `execute` contains the key `secret`, which is present
nowhere in the mutation's requested-field tree — the strict reading of
the claim is false. -/
theorem C5_cherry_pick_counterexample :
    (RQA.execute C5env 0 10 C5op [] true ⟨[], 0, 0⟩).1 =
      .ok (.arr [.obj [("profile", .obj [("secret", .str "s")])]]) ∧
    strictRespects (.arr [.obj [("profile", .obj [("secret", .str "s")])]])
      [("profile", FieldSel.leaf [])] = false := by
  constructor
  · have h : (RQA.execute C5env 0 10 C5op [] true ⟨[], 0, 0⟩).1 =
        .ok (.arr [RQA.cherryPickFields
          (.obj [("profile", .obj [("secret", .str "s")])])
          [("profile", FieldSel.leaf [])]]) := rfl
    rw [h]
    simp [RQA.cherryPickFields, RQA.cherryPickLoop, getStep, alookup, setKey]
  · rfl

/-- C5 (amended): the cherry-picking pass never emits a field that was
not explicitly requested at any level where a nested selection applies —
fields requested as leaves are copied verbatim (their contents, including
transform-added objects, are exempt).  Part 1 states this for
`cherryPickFields` on any data and any duplicate-free selection tree;
part 2 lifts it to `executeMutation`: each mutation's result respects its
own requested-field tree in the amended sense. -/
theorem C5_cherry_pick_amended :
    (∀ (fields : List (String × FieldSel)) (dat : JValue),
      selNodup fields = true →
      pickRespects (RQA.cherryPickFields dat fields) fields = true) ∧
    (∀ (env : Env) (fuel : Nat) (vars : VarMap) (qs : List ParsedQuery)
      (st : St) (res : List JValue) (st2 : St),
      RQA.executeMutationGo env fuel vars qs [] st = (.ok res, st2) →
      List.Forall₂ (fun (v : JValue) (m : ParsedQuery) =>
        selNodup m.fields = true → pickRespects v m.fields = true) res qs) := by
  have hmain : ∀ (fields : List (String × FieldSel)) (dat : JValue),
      selNodup fields = true →
      pickRespects (RQA.cherryPickFields dat fields) fields = true :=
    fun fields dat hnd =>
      pickRespects_cherryPick (sizeOf fields + 1) fields (by omega) hnd dat
  refine ⟨hmain, ?_⟩
  intro env fuel vars qs st res st2 h
  obtain ⟨picks, hres, hfa⟩ :=
    RQA.executeMutationGo_results env fuel vars qs [] st res st2 h
  rw [hres]
  simp only [List.nil_append]
  refine List.Forall₂.imp ?_ hfa
  intro v m hv hnd
  obtain ⟨shaped, hsh⟩ := hv
  rw [hsh]
  exact hmain m.fields shaped hnd

/-- Witness for C5's amended theorem: part 1 at a concrete leak-shaped
value and selection, and part 2 at the concrete `C5env` mutation run. -/
theorem C5_cherry_pick_amended_witness :
    pickRespects
      (RQA.cherryPickFields (.obj [("profile", .obj [("secret", .str "s")])])
        [("profile", FieldSel.leaf [])])
      [("profile", FieldSel.leaf [])] = true ∧
    List.Forall₂ (fun (v : JValue) (m : ParsedQuery) =>
        selNodup m.fields = true → pickRespects v m.fields = true)
      [RQA.cherryPickFields (.obj [("profile", .obj [("secret", .str "s")])])
        [("profile", FieldSel.leaf [])]] C5op.queries := by
  have h := C5_cherry_pick_amended
  refine ⟨h.1 [("profile", FieldSel.leaf [])]
    (.obj [("profile", .obj [("secret", .str "s")])]) rfl, ?_⟩
  exact h.2 C5env 10 [] C5op.queries ⟨[], 0, 0⟩ _ ⟨[], 1, 1⟩ rfl

/-! ## C6: failed nested resource fetches during shaping -/

def c6AddrRs : SchemaResource :=
  { fields := [("street", { type := "String" })],
    endpoints := [(.GET, ⟨.GET, "/address"⟩)],
    dataPath := some "data" }

def c6UserRs : SchemaResource :=
  { fields := [("id", { type := "String" }), ("address", { type := "Address" })],
    endpoints := [(.GET, ⟨.GET, "/user"⟩)],
    dataPath := some "data" }

/-- Environment for the nested-failure scenario: fetching `user` succeeds
with `\x7bid: "1"\x7d` (no embedded address), and every fetch of the
`address` resource fails at the transport. -/
def c6env : Env :=
  { schema := { resources := [("user", c6UserRs), ("address", c6AddrRs)], types := [] },
    transformers := [],
    transport := fun name _ _ =>
      if name = "user" then .ok (.obj [("data", .obj [("id", .str "1")])])
      else .error (.network "Request to /address failed with status 500"),
    ttl := 100 }

/-- `query GetUser \x7b user \x7b id address \x7b street \x7d \x7d \x7d`. -/
def c6op : ParsedOperation :=
  { operationType := "query", operationName := "GetUser", varDecls := [],
    queries := [{ queryName := "user", args := [],
                  fields := [("id", .leaf []),
                             ("address", .node [] [("street", .leaf [])])] }] }

/-- C6, counterexample.  A query requesting `user \x7b id address \x7b street \x7d \x7d`
against a transport whose `address` fetch always fails resolves
successfully (the failure is caught locally and the parent's `id` field
survives, as claimed), but the shaped `user` object is
`\x7bid: "1"\x7d` with **no** `address` key at all: reading `address` off
the result gives `undefined`, not the claimed `null`.  (`shapeData`,
restQl.ts lines 323–343: the catch sets `rawValue = null`, and the
`if (rawValue !== null)` guard then skips the assignment, so the field is
omitted rather than set to `null`.)  The run issues both transport calls
(`calls = 2`) — the nested fetch really was attempted and really failed. -/
theorem C6_nested_failure_counterexample :
    RQB.execute c6env 0 10 c6op [] true ⟨[], 0, 0⟩ =
      (.ok (.obj [("user", .obj [("id", .str "1")])]),
       ⟨[("user:\x7b\x7d", .obj [("id", .str "1")], 100)], 2, 1⟩) ∧
    getStep (.obj [("id", .str "1")]) "address" = .undef :=
  ⟨rfl, rfl⟩

/-- C6, amended.  One field step of `shapeData`'s loop for a
resource-typed field (`fschema.type` resolves in the schema) whose
extracted raw value is `undefined` and whose nested
`executeQueryField` fetch fails with any error: the error is swallowed
by the local catch, the loop continues over the remaining fields from
the state the failed fetch left behind, and the accumulated shaped
object is unchanged — the field is *omitted* from the output (it is not
assigned `null`), and no error propagates to the caller. -/
theorem C6_nested_failure_amended
    (env : Env) (fuel : Nat) (dat : JValue) (rshape : ResShape)
    (fname : String) (fieldValueJ : JValue) (fschema : SchemaField)
    (rest : List (String × JValue)) (acc : List (String × JValue))
    (nrs : SchemaResource) (n n1 : Nat) (e : RError)
    (hfield : alookup rshape.fields fname = some fschema)
    (hres : alookup env.schema.resources (strToLower fschema.type) = some nrs)
    (hraw : lodashGet dat (fschema.fromPath.getD fname) = .undef)
    (htr : fschema.transform = none)
    (hfail : RQB.executeQueryField env fuel fname fieldValueJ [] [] nrs n = (.error e, n1)) :
    RQB.shapeFieldsFold env
      (fun f v r => RQB.executeQueryField env fuel f v [] [] r)
      (fun d q r => RQB.shapeData env fuel d q r)
      dat rshape ((fname, fieldValueJ) :: rest) acc n =
    RQB.shapeFieldsFold env
      (fun f v r => RQB.executeQueryField env fuel f v [] [] r)
      (fun d q r => RQB.shapeData env fuel d q r)
      dat rshape rest acc n1 := by
  have hstep : RQB.shapeFieldStep env
      (fun f v r => RQB.executeQueryField env fuel f v [] [] r)
      (fun d q r => RQB.shapeData env fuel d q r)
      dat fname fieldValueJ fschema acc n = (.ok acc, n1) := by
    simp only [RQB.shapeFieldStep]
    rw [hraw, hres, htr]
    have hc2 : (fschema.isResource = true ∨
        (some nrs : Option SchemaResource).isSome = true) := Or.inr rfl
    simp only [MT.bind, MT.tryCatch, MT.pure, if_pos hc2]
    rw [hfail]
  rw [RQB.shapeFieldsFold, hfield]
  simp only [MT.bind]
  rw [hstep]

/-- Witness for C6's amended theorem: in the concrete environment the
`address` fetch fails at transport-call count 1, and the shaping loop
over `[address]` starting from the already-shaped `\x7bid: "1"\x7d`
returns it untouched (no `address` key) at count 2. -/
theorem C6_nested_failure_amended_witness :
    RQB.executeQueryField c6env 8 "address"
        (fieldSelToJ (.node [] [("street", .leaf [])])) [] [] c6AddrRs 1 =
      (.error (.network "Request to /address failed with status 500"), 2) ∧
    RQB.shapeFieldsFold c6env
        (fun f v r => RQB.executeQueryField c6env 8 f v [] [] r)
        (fun d q r => RQB.shapeData c6env 8 d q r)
        (.obj [("id", .str "1")]) c6UserRs.toShape
        [("address", fieldSelToJ (.node [] [("street", .leaf [])]))]
        [("id", .str "1")] 1 =
      RQB.shapeFieldsFold c6env
        (fun f v r => RQB.executeQueryField c6env 8 f v [] [] r)
        (fun d q r => RQB.shapeData c6env 8 d q r)
        (.obj [("id", .str "1")]) c6UserRs.toShape [] [("id", .str "1")] 2 :=
  ⟨rfl,
   C6_nested_failure_amended c6env 8 (.obj [("id", .str "1")]) c6UserRs.toShape
     "address" (fieldSelToJ (.node [] [("street", .leaf [])])) { type := "Address" }
     [] [("id", .str "1")] c6AddrRs 1 2
     (.network "Request to /address failed with status 500")
     rfl rfl rfl rfl rfl⟩

/-! ## C7: strict vs lenient variable resolution -/

/-- If any argument of a fold step is outside the loop, an absent key
stays absent: the lenient resolver's fold never writes a key that is not
among the argument names. -/
theorem RQA.resolve_fold_not_mem (vars : VarMap) (args : List (String × String))
    (acc : List (String × JValue)) (k : String)
    (hk : k ∉ args.map Prod.fst) :
    alookup (args.foldl (fun acc kv =>
      if strStartsWith kv.2 "$" then
        match alookup vars (strDrop kv.2 1) with
        | some jv => setKey acc kv.1 jv
        | none => acc
      else setKey acc kv.1 (.str kv.2)) acc) k = alookup acc k := by
  induction args generalizing acc with
  | nil => rfl
  | cons hd tl ih =>
      obtain ⟨k', v'⟩ := hd
      have hne : k' ≠ k := by
        intro h; exact hk (by simp [h])
      have htl : k ∉ tl.map Prod.fst := by
        intro h; exact hk (by simp [h])
      rw [List.foldl_cons, ih _ htl]
      by_cases hs : strStartsWith v' "$" = true
      · simp only [hs, if_true]
        cases halk : alookup vars (strDrop v' 1) with
        | none => rfl
        | some jv => exact alookup_setKey_ne acc k' k jv hne
      · simp only [if_neg hs]
        exact alookup_setKey_ne acc k' k (.str v') hne

/-- The lenient resolver (part_001 lines 547–565) silently drops an
argument whose `$var` reference is not provided: when the argument keys
are pairwise distinct (as JS object keys are), the dropped key is absent
from the resolved map. -/
theorem RQA.resolve_drops (vars : VarMap) (args : List (String × String))
    (acc : List (String × JValue)) (k v : String)
    (hnd : (args.map Prod.fst).Nodup) (hmem : (k, v) ∈ args)
    (hs : strStartsWith v "$" = true)
    (hmiss : alookup vars (strDrop v 1) = none)
    (hacc : alookup acc k = none) :
    alookup (args.foldl (fun acc kv =>
      if strStartsWith kv.2 "$" then
        match alookup vars (strDrop kv.2 1) with
        | some jv => setKey acc kv.1 jv
        | none => acc
      else setKey acc kv.1 (.str kv.2)) acc) k = none := by
  induction args generalizing acc with
  | nil => cases hmem
  | cons hd tl ih =>
      obtain ⟨k', v'⟩ := hd
      simp only [List.map_cons, List.nodup_cons] at hnd
      rcases List.mem_cons.mp hmem with heq | hm
      · injection heq with hk hv
        subst hk; subst hv
        rw [List.foldl_cons]
        rw [RQA.resolve_fold_not_mem vars tl _ _ hnd.1]
        simp only [hs, if_true, hmiss]
        exact hacc
      · have hk' : k' ≠ k := by
          intro h
          subst h
          exact hnd.1 (List.mem_map.mpr ⟨(k', v), hm, rfl⟩)
        rw [List.foldl_cons]
        refine ih _ hnd.2 hm ?_
        by_cases hs' : strStartsWith v' "$" = true
        · simp only [hs', if_true]
          cases halk : alookup vars (strDrop v' 1) with
          | none => exact hacc
          | some jv => rw [alookup_setKey_ne acc k' k jv hk']; exact hacc
        · simp only [if_neg hs']
          rw [alookup_setKey_ne acc k' k (.str v') hk']; exact hacc

/-- The strict resolver (restQl.ts lines 451–468) throws a
`ValidationError` naming some unresolved variable whenever any argument
holds a `$var` reference outside the provided map. -/
theorem RQB.resolve_go_errors (vars : VarMap) (args : List (String × String))
    (acc : List (String × JValue)) (k v : String)
    (hmem : (k, v) ∈ args) (hs : strStartsWith v "$" = true)
    (hmiss : alookup vars (strDrop v 1) = none) :
    ∃ x, RQB.resolveVariables.go vars args acc =
        .error (.validation ("Variable $" ++ x ++ " is not defined")) ∧
      alookup vars x = none := by
  induction args generalizing acc with
  | nil => cases hmem
  | cons hd tl ih =>
      obtain ⟨k', v'⟩ := hd
      by_cases hs' : strStartsWith v' "$" = true
      · rw [RQB.resolveVariables.go]
        simp only [hs', if_true]
        cases halk : alookup vars (strDrop v' 1) with
        | none => exact ⟨strDrop v' 1, rfl, halk⟩
        | some jv =>
            rcases List.mem_cons.mp hmem with heq | hm
            · injection heq with hk hv
              subst hk; subst hv
              rw [hmiss] at halk; cases halk
            · exact ih _ hm
      · rw [RQB.resolveVariables.go]
        simp only [if_neg hs']
        rcases List.mem_cons.mp hmem with heq | hm
        · injection heq with hk hv
          subst hk; subst hv
          exact absurd hs hs'
        · exact ih _ hm

/-- A top-level query whose arguments fail strict resolution is rejected
before the cache, the batch manager, or the transport are touched: the
cache key is computed through the strict resolver, so `execute` returns
the resolver's error with the engine state unchanged. -/
theorem RQB.execute_unresolved_arg (env : Env) (now fuel : Nat)
    (op : ParsedOperation) (vars : VarMap) (useCache : Bool) (st : St)
    (q : ParsedQuery) (qs : List ParsedQuery) (rs : SchemaResource) (e : RError)
    (hq : op.operationType = "query") (hqs : op.queries = q :: qs)
    (hrs : alookup env.schema.resources (strToLower q.queryName) = some rs)
    (hfail : RQB.resolveVariables q.args vars = .error e) :
    RQB.execute env now fuel op vars useCache st = (.error e, st) := by
  have hck : RQB.getCacheKey q.queryName q.args vars = .error e := by
    unfold RQB.getCacheKey
    rw [hfail]
    rfl
  unfold RQB.execute
  rw [hq, if_pos rfl, hqs]
  rw [RQB.executeQueryGo, hrs]
  simp only [M.bind, M.ofExcept, M.throw, hck]

/-- `query Q \x7b user(id: $id) \x7b id \x7d \x7d` with no variables
supplied. -/
def c7op : ParsedOperation :=
  { operationType := "query", operationName := "Q", varDecls := [],
    queries := [{ queryName := "user", args := [("id", "$id")],
                  fields := [("id", .leaf [])] }] }

/-- C7.  (1) A top-level query whose argument map fails strict
resolution makes `execute` reject with exactly that error and an
unchanged state; (2) the strict resolver fails with a
`ValidationError`-kind fault naming an unprovided variable whenever some
argument references one — it never drops it; (3) the lenient resolver of
the other draft is total and silently drops such an argument: the key is
absent from the resolved map. -/
theorem C7_variable_resolution_asymmetry :
    (∀ env now fuel op vars useCache st q qs rs e,
        op.operationType = "query" → op.queries = q :: qs →
        alookup env.schema.resources (strToLower q.queryName) = some rs →
        RQB.resolveVariables q.args vars = .error e →
        RQB.execute env now fuel op vars useCache st = (.error e, st)) ∧
    (∀ (args : List (String × String)) (vars : VarMap) k v,
        (k, v) ∈ args → strStartsWith v "$" = true →
        alookup vars (strDrop v 1) = none →
        ∃ x, RQB.resolveVariables args vars =
            .error (.validation ("Variable $" ++ x ++ " is not defined")) ∧
          alookup vars x = none) ∧
    (∀ (args : List (String × String)) (vars : VarMap) k v,
        (args.map Prod.fst).Nodup → (k, v) ∈ args →
        strStartsWith v "$" = true → alookup vars (strDrop v 1) = none →
        alookup (RQA.resolveVariables args vars) k = none) :=
  ⟨fun env now fuel op vars useCache st q qs rs e hq hqs hrs hfail =>
     RQB.execute_unresolved_arg env now fuel op vars useCache st q qs rs e hq hqs hrs hfail,
   fun args vars k v hmem hs hmiss =>
     RQB.resolve_go_errors vars args [] k v hmem hs hmiss,
   fun args vars k v hnd hmem hs hmiss =>
     RQA.resolve_drops vars args [] k v hnd hmem hs hmiss rfl⟩

/-- Witness for C7: `user(id: $id)` with no variables rejects the whole
call with the strict resolver's `ValidationError` and leaves the state
untouched, while the lenient resolver on the same arguments drops `id`
and keeps `n`. -/
theorem C7_variable_resolution_asymmetry_witness :
    RQB.execute c6env 0 5 c7op [] true ⟨[], 0, 0⟩ =
      (.error (.validation "Variable $id is not defined"), ⟨[], 0, 0⟩) ∧
    (∃ x, RQB.resolveVariables [("id", "$id")] [] =
        .error (.validation ("Variable $" ++ x ++ " is not defined")) ∧
      alookup ([] : VarMap) x = none) ∧
    alookup (RQA.resolveVariables [("id", "$id"), ("n", "5")] []) "id" = none :=
  ⟨C7_variable_resolution_asymmetry.1 c6env 0 5 c7op [] true ⟨[], 0, 0⟩
     ⟨"user", [("id", "$id")], [("id", .leaf [])]⟩ [] c6UserRs
     (.validation "Variable $id is not defined") rfl rfl rfl rfl,
   C7_variable_resolution_asymmetry.2.1 [("id", "$id")] [] "id" "$id"
     (by decide) rfl rfl,
   C7_variable_resolution_asymmetry.2.2 [("id", "$id"), ("n", "5")] [] "id" "$id"
     (by decide) (by decide) rfl rfl⟩

/-! ## C3: cache replay -/

/-- `CacheManager.has` deletes only the key it reads (and only when
expired), so it preserves any live entry. -/
theorem cacheHasCore_preserves (now : Nat) (c : CacheT) (k' k : String)
    (v : JValue) (e : Nat) (h : alookup c k = some (v, e)) (hlive : now ≤ e) :
    alookup (cacheHasCore now c k').2 k = some (v, e) := by
  unfold cacheHasCore
  cases halk : alookup c k' with
  | none => exact h
  | some p =>
      obtain ⟨v', e'⟩ := p
      by_cases hexp : now > e'
      · simp only [if_pos hexp]
        have hkk : k ≠ k' := by
          intro hkk
          subst hkk
          rw [h] at halk
          injection halk with hp
          injection hp with hv he
          subst he
          exact absurd hexp (Nat.not_lt.mpr hlive)
        rw [alookup_delKey_ne c k' k (fun hh => hkk hh.symm)]
        exact h
      · simp only [if_neg hexp]
        exact h

/-- `CacheManager.get` likewise preserves any live entry. -/
theorem cacheGetCore_preserves (now : Nat) (c : CacheT) (k' k : String)
    (v : JValue) (e : Nat) (h : alookup c k = some (v, e)) (hlive : now ≤ e) :
    alookup (cacheGetCore now c k').2 k = some (v, e) := by
  unfold cacheGetCore
  cases halk : alookup c k' with
  | none => exact h
  | some p =>
      obtain ⟨v', e'⟩ := p
      by_cases hexp : now > e'
      · simp only [if_pos hexp]
        have hkk : k ≠ k' := by
          intro hkk
          subst hkk
          rw [h] at halk
          injection halk with hp
          injection hp with hv he
          subst he
          exact absurd hexp (Nat.not_lt.mpr hlive)
        rw [alookup_delKey_ne c k' k (fun hh => hkk hh.symm)]
        exact h
      · simp only [if_neg hexp]
        exact h

theorem cacheGetValue_preserves (now : Nat) (c : CacheT) (k' k : String)
    (v : JValue) (e : Nat) (h : alookup c k = some (v, e)) (hlive : now ≤ e) :
    alookup (cacheGetValue now c k').2 k = some (v, e) := by
  unfold cacheGetValue
  cases hgc : cacheGetCore now c k' with
  | mk o c2 =>
      have hp := cacheGetCore_preserves now c k' k v e h hlive
      rw [hgc] at hp
      cases o <;> exact hp

/-- Reading a live entry through `has` hits and leaves the cache as is. -/
theorem cacheHasCore_live (now : Nat) (c : CacheT) (k : String)
    (v : JValue) (e : Nat) (h : alookup c k = some (v, e)) (hlive : now ≤ e) :
    cacheHasCore now c k = (true, c) := by
  unfold cacheHasCore
  rw [h]
  simp only [if_neg (Nat.not_lt.mpr hlive)]

/-- Reading a live entry through `get` yields its stored data and leaves
the cache as is. -/
theorem cacheGetValue_live (now : Nat) (c : CacheT) (k : String)
    (v : JValue) (e : Nat) (h : alookup c k = some (v, e)) (hlive : now ≤ e) :
    cacheGetValue now c k = (v, c) := by
  unfold cacheGetValue cacheGetCore
  rw [h]
  simp only [if_neg (Nat.not_lt.mpr hlive)]

/-- The query loop never disturbs a live cache entry: lazy expiry only
deletes the key actually read (and only when expired), and a store can
only happen after a miss on its own key, which a live entry rules out. -/
theorem RQB.executeQueryGo_cache_stable (env : Env) (now fuel : Nat) (vars : VarMap) :
    ∀ (qs : List ParsedQuery) (results : List (String × JValue)) (st : St)
      (r : Except RError (List (String × JValue))) (st' : St)
      (k : String) (v : JValue) (e : Nat),
      RQB.executeQueryGo env now fuel vars true qs results st = (r, st') →
      alookup st.cache k = some (v, e) → now ≤ e →
      alookup st'.cache k = some (v, e) := by
  intro qs
  induction qs with
  | nil =>
      intro results st r st' k v e hrun h hlive
      rw [RQB.executeQueryGo] at hrun
      injection hrun with h1 h2
      subst h2
      exact h
  | cons q qs ih =>
      intro results st r st' k v e hrun h hlive
      rw [RQB.executeQueryGo] at hrun
      cases hrs : alookup env.schema.resources (strToLower q.queryName) with
      | none =>
          rw [hrs] at hrun
          simp only [M.throw] at hrun
          injection hrun with h1 h2
          subst h2
          exact h
      | some rs =>
          rw [hrs] at hrun
          simp only [M.bind, M.ofExcept] at hrun
          cases hck : RQB.getCacheKey q.queryName q.args vars with
          | error ee =>
              rw [hck] at hrun
              simp only [M.throw] at hrun
              injection hrun with h1 h2
              subst h2
              exact h
          | ok key =>
              rw [hck] at hrun
              simp only [M.pure, if_true, M.cacheHas] at hrun
              cases hhas : cacheHasCore now st.cache key with
              | mk hit c1 =>
                  rw [hhas] at hrun
                  have hc1 : alookup c1 k = some (v, e) := by
                    have hp := cacheHasCore_preserves now st.cache key k v e h hlive
                    rw [hhas] at hp
                    exact hp
                  cases hit with
                  | true =>
                      simp only [if_true, M.cacheGetJ, M.bind] at hrun
                      cases hget : cacheGetValue now c1 key with
                      | mk w c2 =>
                          rw [hget] at hrun
                          have hc2 : alookup c2 k = some (v, e) := by
                            have hp := cacheGetValue_preserves now c1 key k v e hc1 hlive
                            rw [hget] at hp
                            exact hp
                          exact ih _ _ _ _ k v e hrun hc2 hlive
                  | false =>
                      simp only [Bool.false_eq_true, if_false, M.batchAdd, M.liftT,
                        M.bind] at hrun
                      cases hx : (RQB.executeQueryField env fuel q.queryName
                          (fieldsToJ q.fields) q.args vars rs) st.calls with
                      | mk xr n' =>
                          rw [hx] at hrun
                          cases xr with
                          | error ee =>
                              simp only at hrun
                              injection hrun with h1 h2
                              subst h2
                              exact hc1
                          | ok w =>
                              simp only [M.cacheSet, M.pure] at hrun
                              have hkey : k ≠ key := by
                                intro hkk
                                subst hkk
                                rw [cacheHasCore_live now st.cache k v e h hlive] at hhas
                                injection hhas with hh1 hh2
                                cases hh1
                              have hc3 : alookup (cacheSetCore now env.ttl c1 key w) k
                                  = some (v, e) := by
                                unfold cacheSetCore
                                rw [alookup_setKey_ne c1 key k (w, now + env.ttl)
                                  (fun hh => hkey hh.symm)]
                                exact hc1
                              exact ih _ _ _ _ k v e hrun hc3 hlive

/-- Replaying the query loop from the final cache of a successful run,
at any time at which all of that cache's entries are still live, hits
the cache on every query, reproduces the same results list, and leaves
the state (cache, transport-call count, batch count) untouched. -/
theorem RQB.executeQueryGo_replay (env : Env) (now1 now2 fuel : Nat) (vars : VarMap)
    (res : List (String × JValue)) (st1 : St)
    (hfin : ∀ k v e, alookup st1.cache k = some (v, e) → now2 ≤ e) :
    ∀ (qs : List ParsedQuery) (results : List (String × JValue)) (st : St) (c b : Nat),
      RQB.executeQueryGo env now1 fuel vars true qs results st = (.ok res, st1) →
      RQB.executeQueryGo env now2 fuel vars true qs results ⟨st1.cache, c, b⟩ =
        (.ok res, ⟨st1.cache, c, b⟩) := by
  intro qs
  induction qs with
  | nil =>
      intro results st c b hrun
      rw [RQB.executeQueryGo] at hrun
      rw [RQB.executeQueryGo]
      simp only [M.pure] at hrun ⊢
      injection hrun with h1 h2
      injection h1 with h1
      subst h1
      rfl
  | cons q qs ih =>
      intro results st c b hrun
      rw [RQB.executeQueryGo] at hrun
      rw [RQB.executeQueryGo]
      cases hrs : alookup env.schema.resources (strToLower q.queryName) with
      | none =>
          rw [hrs] at hrun
          simp only [M.throw] at hrun
          injection hrun with h1 h2
          exact Except.noConfusion h1
      | some rs =>
          rw [hrs] at hrun
          simp only [M.bind, M.ofExcept] at hrun ⊢
          cases hck : RQB.getCacheKey q.queryName q.args vars with
          | error ee =>
              rw [hck] at hrun
              simp only [M.throw] at hrun
              injection hrun with h1 h2
              exact Except.noConfusion h1
          | ok key =>
              rw [hck] at hrun
              simp only [M.pure, if_true, M.cacheHas, M.bind] at hrun ⊢
              cases hhas : cacheHasCore now1 st.cache key with
              | mk hit c1 =>
                  rw [hhas] at hrun
                  cases hit with
                  | true =>
                      simp only [if_true, M.cacheGetJ, M.bind] at hrun
                      unfold cacheHasCore at hhas
                      cases halk : alookup st.cache key with
                      | none =>
                          rw [halk] at hhas
                          dsimp only at hhas
                          injection hhas with hh1 hh2
                          cases hh1
                      | some p =>
                          obtain ⟨v0, e0⟩ := p
                          rw [halk] at hhas
                          dsimp only at hhas
                          by_cases hexp : now1 > e0
                          · rw [if_pos hexp] at hhas
                            injection hhas with hh1 hh2
                            cases hh1
                          · rw [if_neg hexp] at hhas
                            injection hhas with hh1 hh2
                            subst hh2
                            rw [cacheGetValue_live now1 st.cache key v0 e0 halk
                              (Nat.not_lt.mp hexp)] at hrun
                            dsimp only at hrun
                            have hstab := RQB.executeQueryGo_cache_stable env now1 fuel vars
                              qs _ _ _ _ key v0 e0 hrun halk (Nat.not_lt.mp hexp)
                            have hl2 := hfin key v0 e0 hstab
                            rw [cacheHasCore_live now2 st1.cache key v0 e0 hstab hl2]
                            simp only [if_true, M.cacheGetJ, M.bind]
                            rw [cacheGetValue_live now2 st1.cache key v0 e0 hstab hl2]
                            exact ih _ _ c b hrun
                  | false =>
                      simp only [Bool.false_eq_true, if_false, M.batchAdd, M.liftT,
                        M.bind] at hrun
                      cases hx : (RQB.executeQueryField env fuel q.queryName
                          (fieldsToJ q.fields) q.args vars rs) st.calls with
                      | mk xr n' =>
                          rw [hx] at hrun
                          cases xr with
                          | error ee =>
                              simp only at hrun
                              injection hrun with h1 h2
                              exact Except.noConfusion h1
                          | ok w =>
                              simp only [M.cacheSet, M.pure, M.bind] at hrun
                              have hset : alookup (cacheSetCore now1 env.ttl c1 key w) key
                                  = some (w, now1 + env.ttl) := by
                                unfold cacheSetCore
                                exact alookup_setKey_self c1 key (w, now1 + env.ttl)
                              have hstab := RQB.executeQueryGo_cache_stable env now1 fuel vars
                                qs _ _ _ _ key w (now1 + env.ttl) hrun hset
                                (Nat.le_add_right now1 env.ttl)
                              have hl2 := hfin key w (now1 + env.ttl) hstab
                              rw [cacheHasCore_live now2 st1.cache key w (now1 + env.ttl)
                                hstab hl2]
                              simp only [if_true, M.cacheGetJ, M.bind]
                              rw [cacheGetValue_live now2 st1.cache key w (now1 + env.ttl)
                                hstab hl2]
                              exact ih _ _ c b hrun

/-- C3.  For every query operation, variable map and schema, after a
successful `execute` with `useCache: true`, a second `execute` with the
same operation string, variables and `useCache: true`, run from the
first call's cache at any time at which none of its entries has expired
(no intervening mutation, invalidation or expiry), returns the identical
shaped output and leaves its state untouched: starting the second call
with any transport-call and batch counters, both counters are unchanged,
so the second call issues zero transport calls and enqueues nothing. -/
theorem C3_cache_replay (env : Env) (now1 now2 fuel : Nat) (op : ParsedOperation)
    (vars : VarMap) (st0 st1 : St) (out : JValue) (c b : Nat)
    (hq : op.operationType = "query")
    (h1 : RQB.execute env now1 fuel op vars true st0 = (.ok out, st1))
    (hlive : ∀ k v e, alookup st1.cache k = some (v, e) → now2 ≤ e) :
    RQB.execute env now2 fuel op vars true ⟨st1.cache, c, b⟩ =
      (.ok out, ⟨st1.cache, c, b⟩) := by
  unfold RQB.execute at h1 ⊢
  rw [hq, if_pos rfl] at h1
  rw [hq, if_pos rfl]
  simp only [M.bind, M.pure] at h1 ⊢
  cases hrun : RQB.executeQueryGo env now1 fuel vars true op.queries [] st0 with
  | mk r stA =>
      rw [hrun] at h1
      cases r with
      | error ee =>
          dsimp only at h1
          injection h1 with h1a h1b
          exact Except.noConfusion h1a
      | ok resl =>
          dsimp only at h1
          injection h1 with h1a h1b
          injection h1a with h1a
          subst h1b
          subst h1a
          rw [RQB.executeQueryGo_replay env now1 now2 fuel vars resl stA hlive
            op.queries [] st0 c b hrun]

/-- Witness for C3: the first call misses, issues two transport calls
and caches the shaped `user`; replaying at time 50 (before the expiry
100) from that cache and fresh counters returns the same output with
zero transport calls and nothing batched. -/
theorem C3_cache_replay_witness :
    RQB.execute c6env 0 10 c6op [] true ⟨[], 0, 0⟩ =
      (.ok (.obj [("user", .obj [("id", .str "1")])]),
       ⟨[("user:\x7b\x7d", .obj [("id", .str "1")], 100)], 2, 1⟩) ∧
    RQB.execute c6env 50 10 c6op [] true
        ⟨[("user:\x7b\x7d", .obj [("id", .str "1")], 100)], 0, 0⟩ =
      (.ok (.obj [("user", .obj [("id", .str "1")])]),
       ⟨[("user:\x7b\x7d", .obj [("id", .str "1")], 100)], 0, 0⟩) :=
  ⟨rfl,
   C3_cache_replay c6env 0 50 10 c6op [] ⟨[], 0, 0⟩
     ⟨[("user:\x7b\x7d", .obj [("id", .str "1")], 100)], 2, 1⟩
     (.obj [("user", .obj [("id", .str "1")])]) 0 0 rfl rfl
     (by
        intro k v e h
        simp only [alookup] at h
        split at h
        · injection h with hp
          injection hp with hv he
          subst he
          decide
        · exact Option.noConfusion h)⟩

/-! ## C8: BatchManager.cancel -/

/-- An arbitrary operation table for the cancel scenario. -/
def c8ops : Nat → Except String JValue := fun _ => .ok .nul

/-- C8.  `new BatchManager(\x7bbatchInterval: 100, maxBatchSize: 3\x7d)`;
`add('key1', op)` enqueues the operation (promise pending, timer armed);
`cancel('key1')` then deletes the key's queue and clears the timer —
but the queued operation's promise is never settled: `cancel`
(BatchManager.ts lines 65–71) only deletes `this.queue[key]` and
clears the timer, it never calls the stored `reject`, so the promise
stays pending forever instead of being rejected with a cancellation
fault. -/
theorem C8_batch_cancel_leaves_promise_pending :
    (bmAdd (some 3) c8ops "key1" 0 BMState.empty).queue = [("key1", [0])] ∧
    (bmAdd (some 3) c8ops "key1" 0 BMState.empty).timer = true ∧
    (bmCancel "key1" (bmAdd (some 3) c8ops "key1" 0 BMState.empty)).queue = [] ∧
    (bmCancel "key1" (bmAdd (some 3) c8ops "key1" 0 BMState.empty)).timer = false ∧
    alookup (bmCancel "key1" (bmAdd (some 3) c8ops "key1" 0 BMState.empty)).settled 0
      = none :=
  ⟨rfl, rfl, rfl, rfl, rfl⟩

/-! ## C9: mutation name prefix matching -/

/-- C9.  `parseMutationType` matches the operation prefixes against the
lower-cased mutation name in the fixed order create, update, patch,
delete; on a match it returns the operation type together with the
suffix of the *original-case* name after the prefix length (6, 6, 5, 6
respectively); a name matching no prefix raises `Unknown mutation
type`.  Each operation type maps to its HTTP verb, and a mutation whose
suffix is not a schema resource (looked up lower-cased) fails with
`Resource … not found in schema.`. -/
theorem C9_mutation_prefix_matching :
    (∀ name, strStartsWith (strToLower name) "create" = true →
        parseMutationType name = .ok ("create", strDrop name 6)) ∧
    (∀ name, strStartsWith (strToLower name) "create" = false →
        strStartsWith (strToLower name) "update" = true →
        parseMutationType name = .ok ("update", strDrop name 6)) ∧
    (∀ name, strStartsWith (strToLower name) "create" = false →
        strStartsWith (strToLower name) "update" = false →
        strStartsWith (strToLower name) "patch" = true →
        parseMutationType name = .ok ("patch", strDrop name 5)) ∧
    (∀ name, strStartsWith (strToLower name) "create" = false →
        strStartsWith (strToLower name) "update" = false →
        strStartsWith (strToLower name) "patch" = false →
        strStartsWith (strToLower name) "delete" = true →
        parseMutationType name = .ok ("delete", strDrop name 6)) ∧
    (∀ name, strStartsWith (strToLower name) "create" = false →
        strStartsWith (strToLower name) "update" = false →
        strStartsWith (strToLower name) "patch" = false →
        strStartsWith (strToLower name) "delete" = false →
        parseMutationType name = .error (.generic ("Unknown mutation type: " ++ name))) ∧
    (getHttpMethodForOperation "create" = .ok .POST ∧
     getHttpMethodForOperation "update" = .ok .PUT ∧
     getHttpMethodForOperation "patch" = .ok .PATCH ∧
     getHttpMethodForOperation "delete" = .ok .DELETE) ∧
    (∀ (env : Env) (fuel : Nat) (vars : VarMap) (m : ParsedQuery) (st : St)
        (pr : String × String),
        parseMutationType m.queryName = .ok pr →
        alookup env.schema.resources (strToLower pr.2) = none →
        RQB.executeMutationGo env fuel vars [m] [] st =
          (.error (.generic ("Resource \x22" ++ pr.2 ++ "\x22 not found in schema.")),
           ⟨st.cache, st.calls, st.batched + 1⟩)) := by
  refine ⟨?_, ?_, ?_, ?_, ?_, ⟨rfl, rfl, rfl, rfl⟩, ?_⟩
  · intro name h
    unfold parseMutationType
    rw [h]
    rfl
  · intro name h1 h2
    unfold parseMutationType
    rw [h1, h2]
    rfl
  · intro name h1 h2 h3
    unfold parseMutationType
    rw [h1, h2, h3]
    rfl
  · intro name h1 h2 h3 h4
    unfold parseMutationType
    rw [h1, h2, h3, h4]
    rfl
  · intro name h1 h2 h3 h4
    unfold parseMutationType
    rw [h1, h2, h3, h4]
    rfl
  · intro env fuel vars m st pr hp hres
    rw [RQB.executeMutationGo]
    simp only [M.bind, M.batchAdd, M.liftT, MT.bind, MT.ofExcept, MT.throw, MT.pure, hp]
    rw [hres]
    rfl

/-- Witness for C9: `DeleteUser`, `deleteUser` and `DELETEUSER` all
select the delete operation with the original-case suffix; `fetchUser`
matches no prefix and errors; `delete` maps to the DELETE verb. -/
theorem C9_mutation_prefix_matching_witness :
    parseMutationType "DeleteUser" = .ok ("delete", "User") ∧
    parseMutationType "deleteUser" = .ok ("delete", "User") ∧
    parseMutationType "DELETEUSER" = .ok ("delete", "USER") ∧
    parseMutationType "fetchUser" =
      .error (.generic ("Unknown mutation type: " ++ "fetchUser")) ∧
    getHttpMethodForOperation "delete" = .ok .DELETE :=
  ⟨C9_mutation_prefix_matching.2.2.2.1 "DeleteUser" rfl rfl rfl rfl,
   C9_mutation_prefix_matching.2.2.2.1 "deleteUser" rfl rfl rfl rfl,
   C9_mutation_prefix_matching.2.2.2.1 "DELETEUSER" rfl rfl rfl rfl,
   C9_mutation_prefix_matching.2.2.2.2.1 "fetchUser" rfl rfl rfl rfl,
   C9_mutation_prefix_matching.2.2.2.2.2.1.2.2.2⟩

/-! ## C10: CacheManager.get collapses miss, expiry and stored null -/

/-- C10.  `CacheManager.get` returns `null` (i) when the key was never
set, (ii) when the entry has expired — in which case the access also
deletes it — and (iii) when the stored value is itself `null` and still
live; the three cases are indistinguishable from the return value
alone. -/
theorem C10_cache_get_null_collapse :
    (∀ (now : Nat) (c : CacheT) (k : String), alookup c k = none →
        cacheGetValue now c k = (.nul, c)) ∧
    (∀ (now : Nat) (c : CacheT) (k : String) (v : JValue) (e : Nat),
        alookup c k = some (v, e) → now > e →
        cacheGetValue now c k = (.nul, delKey c k)) ∧
    (∀ (now : Nat) (c : CacheT) (k : String) (e : Nat),
        alookup c k = some (.nul, e) → now ≤ e →
        cacheGetValue now c k = (.nul, c)) := by
  refine ⟨?_, ?_, ?_⟩
  · intro now c k h
    unfold cacheGetValue cacheGetCore
    rw [h]
  · intro now c k v e h hexp
    unfold cacheGetValue cacheGetCore
    rw [h]
    simp only [if_pos hexp]
  · intro now c k e h hlive
    unfold cacheGetValue cacheGetCore
    rw [h]
    simp only [if_neg (Nat.not_lt.mpr hlive)]

/-- Witness for C10: at time 5, a missing key, an entry expired at 3
(deleted by the read) and a live stored `null` all read as `null`. -/
theorem C10_cache_get_null_collapse_witness :
    cacheGetValue 5 [] "k" = (.nul, []) ∧
    cacheGetValue 5 [("k", .str "x", 3)] "k" = (.nul, []) ∧
    cacheGetValue 5 [("k", .nul, 9)] "k" = (.nul, [("k", .nul, 9)]) :=
  ⟨C10_cache_get_null_collapse.1 5 [] "k" rfl,
   C10_cache_get_null_collapse.2.1 5 [("k", .str "x", 3)] "k" (.str "x") 3 rfl (by decide),
   C10_cache_get_null_collapse.2.2 5 [("k", .nul, 9)] "k" 9 rfl (by decide)⟩
